import Mathlib

/-!
# Verification of the Claude-Companion memory & retrieval store

Shallow embedding of the memory subsystem of the repository:
`src/memory/SemanticIndex.ts` (keyword index, search, eviction),
`ConversationMemory` (record store: markdown format/parse, mutating
operations) and `MemorySystem.retrieveMemories` (coordinator).

Modelling conventions:
* JS strings are Lean `String`s; character-level operations are carried
  out on `String.data : List Char`.  JS `toLowerCase` is modelled on the
  ASCII range (the only range the allow-list keeps after replacement).
* JS `Map` (insertion ordered) is an association list
  `List (key × value)`; `Map.set` on a fresh key appends at the end and
  on an existing key updates the value in place, which is exactly what
  `alist`-style updates below do.
* JS `number` relevance weights (1.0 / 0.95 / 0.9 / 0.8) are exact
  integers in hundredths (`100` / `95` / `90` / `80` : `Int`) — a linear
  rescaling of the exact values, so sums and comparisons correspond
  exactly; no claim in scope depends on binary floating point rounding.
* Wall-clock values (`new Date()`, `Date.now()`, `uuidv4()`) are
  explicit parameters (`today`, `nowIso`, `todoId`); JS `Date` parsing
  in `clearOldEntries` is an explicit parameter
  `parse : String → Option Int` (milliseconds), `none` standing for an
  Invalid Date, whose `>` comparison is always false in JS.
-/

set_option maxHeartbeats 1000000

namespace Companion

/-- JS whitespace characters relevant to `\s` / `trim` on the inputs in
scope (space, tab, newline, carriage return, vertical tab, form feed). -/
def isSpaceChar (c : Char) : Bool :=
  c = ' ' || c = '\t' || c = '\n' || c = '\r' || c = '\x0b' || c = '\x0c'

/-- JS `String.prototype.toLowerCase` restricted to the ASCII range:
`A`–`Z` maps to `a`–`z`, everything else is unchanged.  (Characters that
lowercase differently under full Unicode are all outside the keyword
allow-list both before and after lowercasing.) -/
def jsLower (c : Char) : Char :=
  if 'A' ≤ c ∧ c ≤ 'Z' then Char.ofNat (c.toNat + 32) else c

/-- The character allow-list of the regex `[^一-龥a-z0-9\s]`
in `SemanticIndex.extractKeywordsFromString`: CJK ideographs
U+4E00–U+9FA5, lowercase ASCII letters, ASCII digits, and whitespace. -/
def isKeywordChar (c : Char) : Bool :=
  (0x4e00 ≤ c.toNat ∧ c.toNat ≤ 0x9fa5) ||
    ('a' ≤ c ∧ c ≤ 'z') || ('0' ≤ c ∧ c ≤ '9') || isSpaceChar c

/-- `text.replace(/[^一-龥a-z0-9\s]/g, ' ')` on one character. -/
def replaceDisallowed (c : Char) : Char :=
  if isKeywordChar c then c else ' '

/-- Boolean list-prefix test (JS `String.prototype.startsWith` on
character lists). -/
def listPrefixOf : List Char → List Char → Bool
  | [], _ => true
  | _ :: _, [] => false
  | a :: as, b :: bs => decide (a = b) && listPrefixOf as bs

/-- JS `String.prototype.includes`: `sub` occurs contiguously in
`hay`. -/
def listIncludes (hay sub : List Char) : Bool :=
  if listPrefixOf sub hay then true
  else
    match hay with
    | [] => false
    | _ :: t => listIncludes t sub

/-- JS `hay.includes(sub)` on strings. -/
def strIncludes (hay sub : String) : Bool :=
  listIncludes hay.data sub.data

/-- JS `String.prototype.trim` (drop whitespace at both ends). -/
def jsTrim (s : List Char) : List Char :=
  ((s.dropWhile isSpaceChar).reverse.dropWhile isSpaceChar).reverse

/-- Split a character list at every character satisfying `p`, keeping
empty fragments — the semantics of JS `String.prototype.split` with a
single-character-class separator. -/
def splitOnPred (p : Char → Bool) : List Char → List (List Char)
  | [] => [[]]
  | x :: xs =>
    let r := splitOnPred p xs
    if p x then [] :: r
    else
      match r with
      | [] => [[x]]
      | w :: ws => (x :: w) :: ws

/-- Split at every occurrence of the separator character `c`. -/
def splitOnChar (c : Char) (l : List Char) : List (List Char) :=
  splitOnPred (fun x => decide (x = c)) l

/-- `content.split('\n')` on strings. -/
def strLines (s : String) : List String :=
  (splitOnChar '\n' s.data).map List.asString

/-- `lines.join('\n')`: the inverse direction of `strLines` used by the
markdown formatter. -/
def joinLines : List String → String
  | [] => ""
  | [l] => l
  | l :: ls => l ++ "\n" ++ joinLines ls

/-- Split a character list into its maximal runs of non-whitespace
characters.  JS `text.split(/\s+/)` differs only by possibly producing
empty boundary fragments, which the subsequent `length > 1` filter of
`extractKeywordsFromString` removes in either case. -/
def splitNonSpace : List Char → List (List Char)
  | [] => []
  | c :: cs =>
    if isSpaceChar c then splitNonSpace cs
    else
      match splitNonSpace cs with
      | [] => [[c]]
      | w :: ws =>
        match cs with
        | [] => [[c]]
        | d :: _ => if isSpaceChar d then [c] :: w :: ws else (c :: w) :: ws

/-- The fixed stop-word set of `SemanticIndex.extractKeywordsFromString`
(English function words plus Chinese function words; the single-character
Chinese entries are unreachable behind the `length > 1` filter but are
part of the source's set). -/
def stopWords : List String :=
  ["the", "a", "an", "is", "are", "was", "were", "be", "been", "being",
   "have", "has", "had", "do", "does", "did", "will", "would", "could",
   "should", "may", "might", "must", "shall", "can", "need", "dare",
   "的", "了", "是", "在", "和", "有", "我", "你", "他", "她", "它"]

/-- `SemanticIndex.extractKeywordsFromString`: lowercase, replace every
character outside the allow-list with a space, split on whitespace,
keep tokens of length `> 1`, drop stop words.  Returns a *list*: no
deduplication happens at this level. -/
def extractKeywordsFromString (text : String) : List String :=
  if text = "" then []
  else
    let chars := (text.data.map jsLower).map replaceDisallowed
    let words := (splitNonSpace chars).map List.asString
    let words := words.filter (fun w => w.length > 1)
    words.filter (fun w => !stopWords.contains w)

/-! ## Data model (`src/types/index.ts`) -/

/-- `DecisionRecord` of `src/types/index.ts`. -/
structure DecisionRecord where
  decisionPoint : String
  decision : String
  reason : String
deriving DecidableEq

/-- `ProblemSolution` of `src/types/index.ts`. -/
structure ProblemSolution where
  problem : String
  solution : String
  result : String
deriving DecidableEq

/-- The `'low' | 'medium' | 'high'` priority union of `TodoItem`. -/
inductive Priority where
  | low
  | medium
  | high
deriving DecidableEq

/-- `TodoItem` of `src/types/index.ts`. -/
structure TodoItem where
  id : String
  task : String
  completed : Bool
  priority : Priority
deriving DecidableEq

/-- `Technology` of `src/types/index.ts`. -/
structure Technology where
  name : String
  purpose : String
deriving DecidableEq

/-- `TechnicalDetails` of `src/types/index.ts`. -/
structure TechnicalDetails where
  usedTechnologies : List Technology
  keyCodes : List String
deriving DecidableEq

/-- `ConversationMetadata` of `src/types/index.ts`. -/
structure ConversationMetadata where
  conversationId : String
  title : String
  startTime : String
  endTime : String
  userName : String
  project : String
  summary : String
deriving DecidableEq

/-- `ConversationRecord` of `src/types/index.ts`. -/
structure ConversationRecord where
  metadata : ConversationMetadata
  summary : String
  keyDecisions : List DecisionRecord
  problemsAndSolutions : List ProblemSolution
  technicalDetails : TechnicalDetails
  todos : List TodoItem
  userFeedback : Option String
  relatedMemories : List String
deriving DecidableEq

/-! ## Keyword index (`src/memory/SemanticIndex.ts`) -/

/-- The `'conversation' | 'decision' | 'problem' | 'todo'` union of
`IndexEntry.type`. -/
inductive EntryType where
  | conversation
  | decision
  | problem
  | todo
deriving DecidableEq

/-- `IndexEntry` of `SemanticIndex.ts`; `relevanceScore` is the JS
number modelled as an exact rational. -/
structure IndexEntry where
  id : String
  type : EntryType
  keywords : List String
  timestamp : String
  conversationId : String
  relevanceScore : Int
deriving DecidableEq

/-- The in-memory index `Map<string, IndexEntry[]>`, as an
insertion-ordered association list. -/
abbrev Index := List (String × List IndexEntry)

/-- `this.index.get(keyword)` — first binding of the key, if any. -/
def getBucket (idx : Index) (kw : String) : Option (List IndexEntry) :=
  (idx.find? (fun p => decide (p.1 = kw))).map Prod.snd

/-- The body of the indexing loops:
`if (!this.index.has(kw)) this.index.set(kw, []); this.index.get(kw)?.push(entry)`.
An existing binding keeps its position; a fresh key is appended at the
end of the map's insertion order. -/
def pushEntry (idx : Index) (kw : String) (e : IndexEntry) : Index :=
  if (idx.find? (fun p => decide (p.1 = kw))).isSome then
    idx.map (fun p => if p.1 = kw then (p.1, p.2 ++ [e]) else p)
  else
    idx ++ [(kw, [e])]

/-- `for (const kw of kws) { ... push(entry) }`. -/
def insertAll (idx : Index) (kws : List String) (e : IndexEntry) : Index :=
  kws.foldl (fun i kw => pushEntry i kw e) idx

/-- First-occurrence deduplication: the observable content of building a
JS `Set` from a list and spreading it back (`[...new Set(l)]`). -/
def dedupFirst (seen : List String) : List String → List String
  | [] => []
  | x :: xs =>
    if seen.contains x then dedupFirst seen xs
    else x :: dedupFirst (x :: seen) xs

/-- `SemanticIndex.extractKeywords(conversation)`: title, summary and
project keywords plus lowercased technology names, deduplicated through
a `Set`. -/
def extractKeywords (c : ConversationRecord) : List String :=
  let keywords :=
    extractKeywordsFromString c.metadata.title
      ++ extractKeywordsFromString c.summary
      ++ extractKeywordsFromString c.metadata.project
      ++ c.technicalDetails.usedTechnologies.map
          (fun t => List.asString (t.name.data.map jsLower))
  dedupFirst [] keywords

/-- The conversation-level entry built by `indexConversation`
(weight 1.0). -/
def conversationEntry (c : ConversationRecord) : IndexEntry :=
  { id := c.metadata.conversationId
    type := EntryType.conversation
    keywords := extractKeywords c
    timestamp := c.metadata.startTime
    conversationId := c.metadata.conversationId
    relevanceScore := 100 }

/-- Keywords of one decision: decision text keywords concatenated with
rationale keywords, *not* deduplicated. -/
def decisionKeywords (d : DecisionRecord) : List String :=
  extractKeywordsFromString d.decision ++ extractKeywordsFromString d.reason

/-- The per-decision entry built by `indexConversation` (weight 0.9, id
`conversationId + "_decision_" + decisionPoint`). -/
def decisionEntry (c : ConversationRecord) (d : DecisionRecord) : IndexEntry :=
  { id := c.metadata.conversationId ++ "_decision_" ++ d.decisionPoint
    type := EntryType.decision
    keywords := decisionKeywords d
    timestamp := c.metadata.startTime
    conversationId := c.metadata.conversationId
    relevanceScore := 90 }

/-- Keywords of one problem/solution pair: problem keywords concatenated
with solution keywords, *not* deduplicated. -/
def problemKeywords (ps : ProblemSolution) : List String :=
  extractKeywordsFromString ps.problem ++ extractKeywordsFromString ps.solution

/-- The per-problem entry built by `indexConversation` (weight 0.95, id
`conversationId + "_problem_" + problem.slice(0, 20)`). -/
def problemEntry (c : ConversationRecord) (ps : ProblemSolution) : IndexEntry :=
  { id := c.metadata.conversationId ++ "_problem_"
            ++ List.asString (ps.problem.data.take 20)
    type := EntryType.problem
    keywords := problemKeywords ps
    timestamp := c.metadata.startTime
    conversationId := c.metadata.conversationId
    relevanceScore := 95 }

/-- `SemanticIndex.indexConversation`: fan the conversation entry out to
every conversation keyword, then each decision entry to every (repeated)
decision keyword, then each problem entry likewise.  (The trailing
`save()` only persists the map and does not change it.) -/
def indexConversation (idx : Index) (c : ConversationRecord) : Index :=
  let idx := insertAll idx (extractKeywords c) (conversationEntry c)
  let idx := c.keyDecisions.foldl
    (fun i d => insertAll i (decisionKeywords d) (decisionEntry c d)) idx
  c.problemsAndSolutions.foldl
    (fun i ps => insertAll i (problemKeywords ps) (problemEntry c ps)) idx

/-- The running score map of `search` (`Map<string, number>`), as an
insertion-ordered association list from entry id to accumulated score. -/
abbrev ScoreMap := List (String × Int)

/-- `scores.set(id, (scores.get(id) || 0) + w)`. -/
def updateScore (scores : ScoreMap) (id : String) (w : Int) : ScoreMap :=
  if (scores.find? (fun p => decide (p.1 = id))).isSome then
    scores.map (fun p => if p.1 = id then (p.1, p.2 + w) else p)
  else
    scores ++ [(id, w)]

/-- The inner accumulation loop of `search`: fold one bucket into the
score map. -/
def scoreBucket (scores : ScoreMap) : List IndexEntry → ScoreMap
  | [] => scores
  | e :: es => scoreBucket (updateScore scores e.id e.relevanceScore) es

/-- The outer accumulation loop of `search`: for each query keyword, add
its bucket (if present) into the score map. -/
def computeScores (idx : Index) : List String → ScoreMap → ScoreMap
  | [], scores => scores
  | kw :: kws, scores =>
    match getBucket idx kw with
    | none => computeScores idx kws scores
    | some es => computeScores idx kws (scoreBucket scores es)

/-- The comparator `(a, b) => b[1] - a[1]` of `search` as an order:
`a` precedes `b` when `a`'s score is at least `b`'s. -/
def scoreGE (a b : String × Int) : Prop := b.2 ≤ a.2

instance : DecidableRel scoreGE := fun a b =>
  inferInstanceAs (Decidable (b.2 ≤ a.2))

instance : IsTotal (String × Int) scoreGE :=
  ⟨fun a b => le_total b.2 a.2⟩

instance : IsTrans (String × Int) scoreGE :=
  ⟨fun _ _ _ h1 h2 => le_trans h2 h1⟩

/-- All entries of the index in bucket-iteration order — the view the
resolution loops of `search` traverse (`for (const entries of
this.index.values()) for (const entry of entries)`). -/
def allEntries (idx : Index) : List IndexEntry :=
  idx.foldr (fun p acc => p.2 ++ acc) []

/-- Resolve one scored id to the first entry carrying that id, in
bucket-iteration order. -/
def findEntryById (idx : Index) (id : String) : Option IndexEntry :=
  (allEntries idx).find? (fun e => decide (e.id = id))

/-- The resolution loop of `search`.  The JS version iterates all
buckets and pushes at the first entry whose id matches and is unseen;
the `break` leaves only the innermost loop but the `seenIds` guard
blocks any further push for the same id, so the loop pushes exactly the
first occurrence in bucket-iteration order, skipping ids already seen. -/
def resolveLoop (idx : Index) : List (String × Int) → List String → List IndexEntry
  | [], _ => []
  | (id, s) :: rest, seen =>
    if seen.contains id then resolveLoop idx rest seen
    else
      match findEntryById idx id with
      | some e => { e with relevanceScore := s } :: resolveLoop idx rest (id :: seen)
      | none => resolveLoop idx rest seen

/-- `SemanticIndex.search(query, limit)`: accumulate scores over the
query keywords, sort descending by score (JS `sort` is stable; modelled
by stable insertion sort), truncate to `limit`, resolve ids back to
entries with the accumulated score attached. -/
def search (idx : Index) (query : String) (limit : Nat) : List IndexEntry :=
  let queryKeywords := extractKeywordsFromString query
  let scores := computeScores idx queryKeywords []
  let sortedEntries := (List.insertionSort scoreGE scores).take limit
  resolveLoop idx sortedEntries []

/-- `SemanticIndex.getRelatedConversationIds(query, limit)`: distinct
owning conversation ids of the search results, in first-appearance
order. -/
def getRelatedConversationIds (idx : Index) (query : String) (limit : Nat) :
    List String :=
  dedupFirst [] ((search idx query limit).map (fun e => e.conversationId))

/-- The retention test of `clearOldEntries`:
`new Date(entry.timestamp) > cutoffDate`.  `parse` stands for JS date
parsing (`none` = Invalid Date, whose every `>` comparison is false);
`cutoff` stands for `now − daysToKeep` days in epoch milliseconds. -/
def keepEntry (parse : String → Option Int) (cutoff : Int) (e : IndexEntry) : Bool :=
  match parse e.timestamp with
  | some t => decide (cutoff < t)
  | none => false

/-- `SemanticIndex.clearOldEntries`: filter every bucket by the
retention test and drop buckets that become empty.  (The trailing
`save()` only persists the map.) -/
def clearOldEntries (parse : String → Option Int) (cutoff : Int) (idx : Index) :
    Index :=
  (idx.map (fun p => (p.1, p.2.filter (keepEntry parse cutoff)))).filter
    (fun p => !p.2.isEmpty)

/-! ## Record store (`ConversationMemory`)

The conversation storage area is modelled as an insertion-ordered
association list from filename (as returned by `storage.list`, i.e.
without the `conversations/` directory component) to file content;
`storage.write` overwrites an existing name in place and appends a
fresh name. -/

abbrev Store := List (String × String)

/-- `storage.write` into the conversation area. -/
def storeWrite (store : Store) (name content : String) : Store :=
  if (store.find? (fun p => decide (p.1 = name))).isSome then
    store.map (fun p => if p.1 = name then (p.1, content) else p)
  else
    store ++ [(name, content)]

/-- The filename sanitizer of `saveConversation`:
`title.replace(/[^a-zA-Z0-9一-龥]/g, '_')`. -/
def sanitizeTitle (t : String) : String :=
  List.asString (t.data.map (fun c =>
    if ('a' ≤ c ∧ c ≤ 'z') ∨ ('A' ≤ c ∧ c ≤ 'Z') ∨ ('0' ≤ c ∧ c ≤ '9')
        ∨ (0x4e00 ≤ c.toNat ∧ c.toNat ≤ 0x9fa5) then c else '_'))

/-- The filename written by `saveConversation`
(`${formatDate(new Date())}_${conversationId}_${sanitizedTitle}.md`);
`today` stands for `formatDate(new Date())`. -/
def conversationFilename (today conversationId title : String) : String :=
  today ++ "_" ++ conversationId ++ "_" ++ sanitizeTitle title ++ ".md"

/-- The priority glyph of the todo checklist
(`'!'` for high, `'?'` for medium, empty for low). -/
def priorityGlyph : Priority → String
  | Priority.high => "!"
  | Priority.medium => "?"
  | Priority.low => ""

/-- The lines pushed by `formatConversationMarkdown`, in order. -/
def formatLines (r : ConversationRecord) : List String :=
  ["---",
   "conversation_id: " ++ r.metadata.conversationId,
   "title: " ++ r.metadata.title,
   "start_time: " ++ r.metadata.startTime,
   "end_time: " ++ (if r.metadata.endTime = "" then "进行中" else r.metadata.endTime),
   "user_name: " ++ r.metadata.userName,
   "project: " ++ r.metadata.project,
   "summary: " ++ r.metadata.summary,
   "---",
   "",
   "## 对话摘要",
   "",
   (if r.summary = "" then "暂无摘要" else r.summary),
   ""]
  ++ (if r.keyDecisions.isEmpty then [] else
      ["## 关键决策", "", "| 决策点 | 决策内容 | 决策理由 |",
       "|--------|----------|----------|"]
      ++ r.keyDecisions.map (fun d =>
          "| " ++ d.decisionPoint ++ " | " ++ d.decision ++ " | " ++ d.reason ++ " |")
      ++ [""])
  ++ (if r.problemsAndSolutions.isEmpty then [] else
      ["## 问题与解决方案", "", "| 问题 | 解决方案 | 结果 |",
       "|------|----------|------|"]
      ++ r.problemsAndSolutions.map (fun ps =>
          "| " ++ ps.problem ++ " | " ++ ps.solution ++ " | " ++ ps.result ++ " |")
      ++ [""])
  ++ (if r.technicalDetails.usedTechnologies.isEmpty then [] else
      ["## 技术细节", "", "### 使用的技术"]
      ++ r.technicalDetails.usedTechnologies.map (fun t =>
          "- " ++ t.name ++ ": " ++ t.purpose)
      ++ [""])
  ++ (if r.todos.isEmpty then [] else
      ["## 待办事项", ""]
      ++ r.todos.map (fun td =>
          "- " ++ (if td.completed then "[x]" else "[ ]") ++ " "
            ++ priorityGlyph td.priority ++ " " ++ td.task)
      ++ [""])
  ++ (match r.userFeedback with
      | some fb => ["## 用户反馈", "", fb, ""]
      | none => [])

/-- `ConversationMemory.formatConversationMarkdown`:
`lines.join('\n')`. -/
def formatConversationMarkdown (r : ConversationRecord) : String :=
  joinLines (formatLines r)

/-- One step of the metadata dictionary (`metadata[key] = value` on a JS
object): overwrite an existing key in place, append a fresh one. -/
def metaSet (m : List (String × String)) (k v : String) : List (String × String) :=
  if (m.find? (fun p => decide (p.1 = k))).isSome then
    m.map (fun p => if p.1 = k then (p.1, v) else p)
  else
    m ++ [(k, v)]

/-- `metadata.key || ''` — the empty string both for a missing key and
for a stored empty value. -/
def metaGet (m : List (String × String)) (k : String) : String :=
  match m.find? (fun p => decide (p.1 = k)) with
  | some p => p.2
  | none => ""

/-- `line.split(':').map(s => s.trim())` destructured into its first two
components (`[key, value]`); the remaining fragments of a value that
itself contains colons are dropped. -/
def kvOfLine (l : String) : String × String :=
  (((splitOnChar ':' l.data).map (fun w => List.asString (jsTrim w))).headD "",
   ((splitOnChar ':' l.data).map (fun w => List.asString (jsTrim w))).tail.headD "")

/-- The metadata loop of `parseConversationMarkdown`: toggle on `---`
lines, collect `key: value` assignments while inside the metadata block,
stop at the first `##` heading outside it. -/
def metaLoop : List String → Bool → List (String × String) → List (String × String)
  | [], _, acc => acc
  | l :: ls, inMeta, acc =>
    if l = "---" then metaLoop ls (!inMeta) acc
    else
      let acc' := if inMeta ∧ listIncludes l.data [':'] then
          metaSet acc (kvOfLine l).1 (kvOfLine l).2
        else acc
      if ¬inMeta ∧ listPrefixOf "##".data l.data then acc'
      else metaLoop ls inMeta acc'

/-- `ConversationMemory.parseConversationMarkdown`.  Only the metadata
block is recovered; `summary`, `keyDecisions`, `problemsAndSolutions`
and `todos` are returned as their empty initializers (the parser's
declared locals are never filled).  The surrounding `try/catch` cannot
fire — no statement in the body throws — so the JS `null` branch is
unreachable and the result is always a record. -/
def parseConversationMarkdown (content : String) : Option ConversationRecord :=
  let m := metaLoop (strLines content) false []
  some
    { metadata :=
        { conversationId := metaGet m "conversation_id"
          title := metaGet m "title"
          startTime := metaGet m "start_time"
          endTime := metaGet m "end_time"
          userName := metaGet m "user_name"
          project := metaGet m "project"
          summary := metaGet m "summary" }
      summary := ""
      keyDecisions := []
      problemsAndSolutions := []
      technicalDetails := { usedTechnologies := [], keyCodes := [] }
      todos := []
      userFeedback := none
      relatedMemories := [] }

/-- `ConversationMemory.saveConversation`. -/
def saveConversation (today : String) (store : Store) (conversationId : String)
    (r : ConversationRecord) : Store :=
  storeWrite store (conversationFilename today conversationId r.metadata.title)
    (formatConversationMarkdown r)

/-- `ConversationMemory.loadConversation`: first filename containing the
id as a substring, parsed; `none` when no filename matches. -/
def loadConversation (store : Store) (conversationId : String) :
    Option ConversationRecord :=
  match store.find? (fun p => strIncludes p.1 conversationId) with
  | none => none
  | some p => parseConversationMarkdown p.2

/-- The error message thrown by every mutating operation on a missing
conversation. -/
def notFoundMsg (conversationId : String) : String :=
  "Conversation " ++ conversationId ++ " not found"

/-- `ConversationMemory.addDecision`: load (throwing `NotFound` when
absent), push the decision, save.  The result carries the in-memory
record the call mutated alongside the post-save store. -/
def addDecision (today : String) (store : Store) (conversationId : String)
    (decisionPoint decision reason : String) :
    Except String (ConversationRecord × Store) :=
  match loadConversation store conversationId with
  | none => Except.error (notFoundMsg conversationId)
  | some r =>
    let r' := { r with keyDecisions :=
      r.keyDecisions ++ [{ decisionPoint := decisionPoint, decision := decision,
                           reason := reason }] }
    Except.ok (r', saveConversation today store conversationId r')

/-- `ConversationMemory.addProblemSolution`. -/
def addProblemSolution (today : String) (store : Store) (conversationId : String)
    (problem solution result : String) :
    Except String (ConversationRecord × Store) :=
  match loadConversation store conversationId with
  | none => Except.error (notFoundMsg conversationId)
  | some r =>
    let r' := { r with problemsAndSolutions :=
      r.problemsAndSolutions ++ [{ problem := problem, solution := solution,
                                   result := result }] }
    Except.ok (r', saveConversation today store conversationId r')

/-- `ConversationMemory.addTodo`; `todoId` stands for the generated
`uuidv4()`. -/
def addTodo (today : String) (store : Store) (conversationId : String)
    (todoId task : String) (priority : Priority) :
    Except String (ConversationRecord × Store) :=
  match loadConversation store conversationId with
  | none => Except.error (notFoundMsg conversationId)
  | some r =>
    let r' := { r with todos :=
      r.todos ++ [{ id := todoId, task := task, completed := false,
                    priority := priority }] }
    Except.ok (r', saveConversation today store conversationId r')

/-- `ConversationMemory.updateSummary`: sets both the body summary and
the metadata summary. -/
def updateSummary (today : String) (store : Store) (conversationId : String)
    (summary : String) : Except String (ConversationRecord × Store) :=
  match loadConversation store conversationId with
  | none => Except.error (notFoundMsg conversationId)
  | some r =>
    let r' := { r with summary := summary,
                       metadata := { r.metadata with summary := summary } }
    Except.ok (r', saveConversation today store conversationId r')

/-- `ConversationMemory.endConversation`; `nowIso` stands for
`new Date().toISOString()`. -/
def endConversation (today nowIso : String) (store : Store)
    (conversationId : String) : Except String (ConversationRecord × Store) :=
  match loadConversation store conversationId with
  | none => Except.error (notFoundMsg conversationId)
  | some r =>
    let r' := { r with metadata := { r.metadata with endTime := nowIso } }
    Except.ok (r', saveConversation today store conversationId r')

/-! ## Memory coordinator (`MemorySystem`, `src/memory/MemorySystem.ts`
as bundled in `bin/companion-mcp.js`) -/

/-- `MemoryRetrievalResult` of `src/types/index.ts`, polymorphic in the
user-preference and project-context payloads (opaque to the claims in
scope). -/
structure MemoryRetrievalResult (υ π : Type) where
  conversations : List ConversationRecord
  userPreferences : Option υ
  projectContext : Option π
  relevanceScore : Int
deriving DecidableEq

/-- The state of a `MemorySystem` instance relevant to
`retrieveMemories`: the `semanticIndex` configuration flag, the loaded
keyword index, the conversation file area, and the two singleton
stores. -/
structure MemorySystemState (υ π : Type) where
  semanticIndexEnabled : Bool
  index : Index
  store : Store
  userPrefs : Option υ
  projCtx : Option π

/-- `MemorySystem.retrieveMemories(query, limit)`: empty conversation
list immediately when semantic indexing is disabled; otherwise related
conversation ids from the retrieval engine, each loaded through the
record store (dropping failed loads), with relevance 0.8 exactly when at
least one related id was found and 0 otherwise. -/
def retrieveMemories {υ π : Type} (s : MemorySystemState υ π) (query : String)
    (limit : Nat) : MemoryRetrievalResult υ π :=
  let base : MemoryRetrievalResult υ π :=
    { conversations := [], userPreferences := s.userPrefs,
      projectContext := s.projCtx, relevanceScore := 0 }
  if !s.semanticIndexEnabled then base
  else
    let relatedIds := getRelatedConversationIds s.index query limit
    let convs := relatedIds.filterMap (fun id => loadConversation s.store id)
    { base with conversations := convs,
                relevanceScore := if relatedIds.isEmpty then 0 else 80 }

/-! ## Specification-side definitions

Declarative formulations of what the spec's sentences say, used to state
the claims against the operational definitions above. -/

/-- The score the map `scores` currently associates to an id,
defaulting to 0 (`scores.get(id) || 0`). -/
def lookupScore (s : ScoreMap) (id : String) : Int :=
  match s.find? (fun p => decide (p.1 = id)) with
  | some p => p.2
  | none => 0

/-- `id` has a binding in the score map. -/
def scoredKey (s : ScoreMap) (id : String) : Prop :=
  ∃ p ∈ s, p.1 = id

/-- Declarative per-bucket contribution to an id's search score: the sum
of the relevance weights of every *occurrence* in `kw`'s bucket whose id
matches. -/
def bucketScore (idx : Index) (kw id : String) : Int :=
  ((((getBucket idx kw).getD []).filter (fun e => decide (e.id = id))).map
    IndexEntry.relevanceScore).sum

/-- Declarative accumulated search score of an id: summed over every
occurrence of a query keyword, the bucket contribution of that
keyword. -/
def declScore (idx : Index) (kws : List String) (id : String) : Int :=
  (kws.map (fun kw => bucketScore idx kw id)).sum

/-- The accumulated score exactly as claim C2 words it: the entry's base
relevance weight added *once per query keyword whose bucket contains the
entry* (regardless of how many occurrences of the entry the bucket
holds). -/
def specClaimScore (idx : Index) (query : String) (id : String) : Int :=
  (((extractKeywordsFromString query).filter
      (fun kw => ((getBucket idx kw).getD []).any (fun e => decide (e.id = id)))).length : Int)
    * (match findEntryById idx id with
       | some e => e.relevanceScore
       | none => 0)

/-- The extraction pipeline exactly as the spec words it: lowercase,
replace every character outside the allow-list with a space, split on
whitespace (JS `split` keeps empty boundary fragments), discard tokens
of length ≤ 1 and stop words. -/
def specTokens (text : String) : List String :=
  ((splitOnPred isSpaceChar ((text.data.map jsLower).map replaceDisallowed)).map
      List.asString).filter
    (fun w => w.length > 1 && !stopWords.contains w)

/-- Number of occurrences of the entry `e` in the bucket of `kw`. -/
def countIn (idx : Index) (kw : String) (e : IndexEntry) : Nat :=
  ((getBucket idx kw).getD []).countP (fun x => decide (x = e))

/-- The index invariant of the spec: every keyword key present in the
index maps to a non-empty bucket. -/
def bucketsNonEmpty (idx : Index) : Prop :=
  ∀ p ∈ idx, p.2 ≠ []

/-- A metadata value that survives the `split(':')`/`trim` parsing of
the metadata block: it contains no colon (so nothing is cut off at the
first colon), no newline (so it stays on its line), and is unchanged by
trimming. -/
def metaValueOk (v : String) : Prop :=
  (∀ ch ∈ v.data, ch ≠ ':' ∧ ch ≠ '\n') ∧ jsTrim v.data = v.data

/-- The "empty shell" the markdown parser recovers: the metadata intact,
every body structure at its initializer. -/
def emptyShellOf (r : ConversationRecord) : ConversationRecord :=
  { metadata := r.metadata
    summary := ""
    keyDecisions := []
    problemsAndSolutions := []
    technicalDetails := { usedTechnologies := [], keyCodes := [] }
    todos := []
    userFeedback := none
    relatedMemories := [] }

/-! ## Concrete scenarios used by counterexamples and witnesses -/

/-- Metadata of a freshly created conversation with an ISO start time
(as `createConversation` produces). -/
def exMeta : ConversationMetadata :=
  { conversationId := "conv1", title := "t", startTime := "2024-01-01T10:00:00Z",
    endTime := "", userName := "u", project := "p", summary := "" }

/-- A freshly created, empty conversation record. -/
def exRecord : ConversationRecord :=
  { metadata := exMeta, summary := "", keyDecisions := [],
    problemsAndSolutions := [],
    technicalDetails := { usedTechnologies := [], keyCodes := [] }, todos := [],
    userFeedback := none, relatedMemories := [] }

/-- The store after `createConversation` has written `exRecord`. -/
def exStore : Store := saveConversation "2024-01-01" [] "conv1" exRecord

/-- The store after one `addDecision("conv1", "p1", "d1", "r1")` call on
`exStore`. -/
def exStore1 : Store :=
  match addDecision "2024-01-01" exStore "conv1" "p1" "d1" "r1" with
  | Except.ok (_, s) => s
  | Except.error _ => []

/-- A record like `exRecord` whose metadata values are colon-free and
whose end time is set. -/
def exMetaPlain : ConversationMetadata :=
  { conversationId := "conv1", title := "t", startTime := "monday",
    endTime := "tuesday", userName := "u", project := "pr", summary := "sum" }

/-- The colon-free variant of `exRecord`. -/
def exRecordPlain : ConversationRecord :=
  { metadata := exMetaPlain, summary := "", keyDecisions := [],
    problemsAndSolutions := [],
    technicalDetails := { usedTechnologies := [], keyCodes := [] }, todos := [],
    userFeedback := none, relatedMemories := [] }

/-- An index entry with id `x` and weight 100 (a conversation entry). -/
def cxEntryX : IndexEntry :=
  { id := "x", type := EntryType.conversation, keywords := [], timestamp := "ts",
    conversationId := "cx", relevanceScore := 100 }

/-- An index entry with id `y` and weight 200. -/
def cxEntryY : IndexEntry :=
  { id := "y", type := EntryType.conversation, keywords := [], timestamp := "ts",
    conversationId := "cy", relevanceScore := 200 }

/-- An index whose `hello` bucket holds the same entry twice — the state
`indexConversation` produces when a keyword occurs both in a decision
text and in its rationale. -/
def cxIdxDup : Index := [("hello", [cxEntryX, cxEntryX])]

/-- An index whose `hello` bucket holds two entries with different
weights, used to exercise the top-`limit` cut. -/
def cxIdxTwo : Index := [("hello", [cxEntryX, cxEntryY])]

/-- A decision whose decision text and rationale share the keyword
`jwt`. -/
def exDecision : DecisionRecord :=
  { decisionPoint := "token strategy", decision := "use jwt tokens",
    reason := "jwt stateless scaling" }

/-- A record carrying `exDecision` as its only decision. -/
def exRecordDec : ConversationRecord :=
  { metadata := { conversationId := "conv1", title := "auth redesign",
                  startTime := "s", endTime := "", userName := "u",
                  project := "pr", summary := "" }
    summary := "", keyDecisions := [exDecision], problemsAndSolutions := [],
    technicalDetails := { usedTechnologies := [], keyCodes := [] }, todos := [],
    userFeedback := none, relatedMemories := [] }

/-- A concrete todo item used by witnesses. -/
def exTodo : TodoItem :=
  { id := "id1", task := "task1", completed := false, priority := Priority.low }

/-- A concrete stand-in for JS date parsing: only the string `ts` parses
(to 100 ms). -/
def exParse : String → Option Int :=
  fun s => if s = "ts" then some 100 else none

/-- A concrete coordinator state with indexing enabled over
`exRecordDec`'s index and store. -/
def exMemState : MemorySystemState Unit Unit :=
  { semanticIndexEnabled := true
    index := indexConversation [] exRecordDec
    store := saveConversation "2024-01-01" [] "conv1" exRecordDec
    userPrefs := none
    projCtx := none }

/-! ## Helper lemmas -/

theorem listPrefixOf_append_self (s t : List Char) : listPrefixOf s (s ++ t) = true := by
  induction s with
  | nil => rfl
  | cons c cs ih => simp [listPrefixOf, ih]

theorem listIncludes_append (a s b : List Char) :
    listIncludes (a ++ (s ++ b)) s = true := by
  induction a with
  | nil =>
    unfold listIncludes
    rw [List.nil_append, listPrefixOf_append_self]
    rfl
  | cons c cs ih =>
    unfold listIncludes
    split
    · rfl
    · exact ih

theorem filter_keep_idem (parse : String → Option Int) (cutoff : Int)
    (l : List IndexEntry) :
    (l.filter (keepEntry parse cutoff)).filter (keepEntry parse cutoff)
      = l.filter (keepEntry parse cutoff) := by
  rw [List.filter_filter]
  apply List.filter_congr
  intro a _
  cases keepEntry parse cutoff a <;> rfl

/-- C5. Idempotence of eviction: with the same wall clock (`cutoff`) and
the same date-parsing behaviour, running `clearOldEntries` twice in
succession with no intervening indexing yields the same index content
after the first call as after the second. -/
theorem clearOldEntries_idempotent (parse : String → Option Int) (cutoff : Int)
    (idx : Index) :
    clearOldEntries parse cutoff (clearOldEntries parse cutoff idx)
      = clearOldEntries parse cutoff idx := by
  induction idx with
  | nil => rfl
  | cons p idx ih =>
    simp only [clearOldEntries, List.map_cons, List.filter_cons] at *
    cases hg : (p.2.filter (keepEntry parse cutoff)).isEmpty with
    | true => simpa [hg] using ih
    | false =>
      simp only [hg, Bool.not_false, if_pos]
      simpa [filter_keep_idem, hg] using ih

/-- C10. The eviction sweep retains exactly the entries whose timestamp
parses to a time strictly after the cutoff: every surviving entry has a
parseable timestamp beyond the cutoff (in particular every entry whose
timestamp fails to parse is removed, whatever `daysToKeep` was), and
every entry satisfying the retention test survives in its keyword's
bucket. -/
theorem clearOldEntries_retention (parse : String → Option Int) (cutoff : Int)
    (idx : Index) :
    (∀ p ∈ clearOldEntries parse cutoff idx, ∀ e ∈ p.2,
        ∃ t, parse e.timestamp = some t ∧ cutoff < t)
    ∧ (∀ p ∈ idx, ∀ e ∈ p.2, keepEntry parse cutoff e = true →
        ∃ es, (p.1, es) ∈ clearOldEntries parse cutoff idx ∧ e ∈ es) := by
  constructor
  · intro p hp e he
    rw [clearOldEntries, List.mem_filter] at hp
    obtain ⟨hp, -⟩ := hp
    rw [List.mem_map] at hp
    obtain ⟨q, -, rfl⟩ := hp
    have hk := List.of_mem_filter he
    unfold keepEntry at hk
    cases ht : parse e.timestamp with
    | none => rw [ht] at hk; exact absurd hk (by simp)
    | some t =>
      rw [ht] at hk
      exact ⟨t, rfl, by simpa using hk⟩
  · intro p hp e he hkeep
    refine ⟨p.2.filter (keepEntry parse cutoff), ?_, List.mem_filter.mpr ⟨he, hkeep⟩⟩
    rw [clearOldEntries, List.mem_filter]
    constructor
    · exact List.mem_map.mpr ⟨p, hp, rfl⟩
    · have hmem : e ∈ p.2.filter (keepEntry parse cutoff) :=
        List.mem_filter.mpr ⟨he, hkeep⟩
      simp only [Bool.not_eq_true']
      cases hfe : (p.2.filter (keepEntry parse cutoff)).isEmpty with
      | false => rfl
      | true =>
        rw [List.isEmpty_iff.mp hfe] at hmem
        cases hmem

/-- Witness for C10 at a concrete index, parse function and cutoff. -/
theorem clearOldEntries_retention_witness :
    ∃ es, ("hello", es) ∈ clearOldEntries exParse 50 cxIdxDup ∧ cxEntryX ∈ es :=
  (clearOldEntries_retention exParse 50 cxIdxDup).2 ("hello", [cxEntryX, cxEntryX])
    (by decide) cxEntryX (by decide) (by decide)

theorem pushEntry_nonempty (idx : Index) (kw : String) (e : IndexEntry)
    (h : bucketsNonEmpty idx) : bucketsNonEmpty (pushEntry idx kw e) := by
  intro q hq
  unfold pushEntry at hq
  split at hq
  · rw [List.mem_map] at hq
    obtain ⟨p, hp, rfl⟩ := hq
    split
    · simp
    · exact h p hp
  · rw [List.mem_append] at hq
    rcases hq with hq | hq
    · exact h q hq
    · simp only [List.mem_singleton] at hq
      subst hq
      simp

theorem insertAll_nonempty (idx : Index) (kws : List String) (e : IndexEntry)
    (h : bucketsNonEmpty idx) : bucketsNonEmpty (insertAll idx kws e) := by
  induction kws generalizing idx with
  | nil => exact h
  | cons kw kws ih => exact ih _ (pushEntry_nonempty idx kw e h)

theorem foldl_insertAll_nonempty {α : Type} (f : α → List String)
    (g : α → IndexEntry) (l : List α) (idx : Index)
    (h : bucketsNonEmpty idx) :
    bucketsNonEmpty (l.foldl (fun i a => insertAll i (f a) (g a)) idx) := by
  induction l generalizing idx with
  | nil => exact h
  | cons a l ih => exact ih _ (insertAll_nonempty idx (f a) (g a) h)

/-- C6. Every keyword key present in the index maps to a non-empty
bucket, and the invariant is preserved by both index-mutating
operations: `indexConversation` (which only creates a bucket when it
immediately pushes into it) and `clearOldEntries` (which deletes any
bucket whose filtered list becomes empty — indeed `clearOldEntries`
establishes the invariant unconditionally). -/
theorem index_buckets_nonempty (idx : Index) (c : ConversationRecord)
    (parse : String → Option Int) (cutoff : Int) :
    (bucketsNonEmpty idx → bucketsNonEmpty (indexConversation idx c))
    ∧ bucketsNonEmpty (clearOldEntries parse cutoff idx) := by
  constructor
  · intro h
    unfold indexConversation
    exact foldl_insertAll_nonempty _ _ _ _
      (foldl_insertAll_nonempty _ _ _ _ (insertAll_nonempty _ _ _ h))
  · intro p hp
    rw [clearOldEntries, List.mem_filter] at hp
    obtain ⟨-, hp⟩ := hp
    simp only [Bool.not_eq_true'] at hp
    exact fun h => by simp [h] at hp

/-- Witness for C6 at a concrete record and index. -/
theorem index_buckets_nonempty_witness :
    bucketsNonEmpty (indexConversation cxIdxDup exRecordDec) :=
  (index_buckets_nonempty cxIdxDup exRecordDec exParse 0).1
    (by intro p hp; simp only [cxIdxDup, List.mem_singleton] at hp; subst hp; simp)

/-- C4. Every mutating record-store operation on a missing conversation
id fails with the `NotFound` error instead of silently succeeding, and
no save is performed (the operations return no store); when the id
loads, the operation mutates the loaded in-memory record and saves it. -/
theorem mutating_ops_notfound_or_save
    (today nowIso : String) (store : Store) (cid : String)
    (dp dec rsn pb sol res todoId task summ : String) (prio : Priority) :
    ((∀ p ∈ store, strIncludes p.1 cid = false) →
      addDecision today store cid dp dec rsn = Except.error (notFoundMsg cid)
      ∧ addProblemSolution today store cid pb sol res = Except.error (notFoundMsg cid)
      ∧ addTodo today store cid todoId task prio = Except.error (notFoundMsg cid)
      ∧ updateSummary today store cid summ = Except.error (notFoundMsg cid)
      ∧ endConversation today nowIso store cid = Except.error (notFoundMsg cid))
    ∧ (∀ r, loadConversation store cid = some r →
      addDecision today store cid dp dec rsn =
        Except.ok
          ({ r with keyDecisions := r.keyDecisions
              ++ [{ decisionPoint := dp, decision := dec, reason := rsn }] },
           saveConversation today store cid
             { r with keyDecisions := r.keyDecisions
                ++ [{ decisionPoint := dp, decision := dec, reason := rsn }] })
      ∧ addProblemSolution today store cid pb sol res =
        Except.ok
          ({ r with problemsAndSolutions := r.problemsAndSolutions
              ++ [{ problem := pb, solution := sol, result := res }] },
           saveConversation today store cid
             { r with problemsAndSolutions := r.problemsAndSolutions
                ++ [{ problem := pb, solution := sol, result := res }] })
      ∧ addTodo today store cid todoId task prio =
        Except.ok
          ({ r with todos := r.todos
              ++ [{ id := todoId, task := task, completed := false, priority := prio }] },
           saveConversation today store cid
             { r with todos := r.todos
                ++ [{ id := todoId, task := task, completed := false, priority := prio }] })
      ∧ updateSummary today store cid summ =
        Except.ok
          ({ r with summary := summ, metadata := { r.metadata with summary := summ } },
           saveConversation today store cid
             { r with summary := summ, metadata := { r.metadata with summary := summ } })
      ∧ endConversation today nowIso store cid =
        Except.ok
          ({ r with metadata := { r.metadata with endTime := nowIso } },
           saveConversation today store cid
             { r with metadata := { r.metadata with endTime := nowIso } })) := by
  constructor
  · intro h
    have hload : loadConversation store cid = none := by
      unfold loadConversation
      rw [List.find?_eq_none.mpr (by intro p hp; simp [h p hp])]

    refine ⟨?_, ?_, ?_, ?_, ?_⟩ <;>
      simp [addDecision, addProblemSolution, addTodo, updateSummary,
            endConversation, hload]
  · intro r hr
    refine ⟨?_, ?_, ?_, ?_, ?_⟩ <;>
      simp [addDecision, addProblemSolution, addTodo, updateSummary,
            endConversation, hr]

/-- Witness for C4: on the empty store every mutating call reports
`NotFound`, and on `exStore` a todo append succeeds and saves. -/
theorem mutating_ops_notfound_or_save_witness :
    addDecision "d" [] "conv1" "p" "x" "y" =
      Except.error (notFoundMsg "conv1")
    ∧ ∃ r, loadConversation exStore "conv1" = some r
      ∧ addTodo "d" exStore "conv1" "id1" "task1" Priority.low =
        Except.ok
          ({ r with todos := r.todos ++ [exTodo] },
           saveConversation "d" exStore "conv1"
             { r with todos := r.todos ++ [exTodo] }) := by
  constructor
  · exact ((mutating_ops_notfound_or_save "d" "n" [] "conv1" "p" "x" "y" "p" "s"
      "r" "id1" "t" "s" Priority.low).1 (by intro p hp; cases hp)).1
  · cases hl : loadConversation exStore "conv1" with
    | none =>
      have hs : (loadConversation exStore "conv1").isSome = true := by decide
      rw [hl] at hs
      cases hs
    | some r =>
      exact ⟨r, rfl, ((mutating_ops_notfound_or_save "d" "n" exStore "conv1" "p"
        "x" "y" "p" "s" "r" "id1" "task1" "s" Priority.low).2 r hl).2.2.1⟩

theorem loadConversation_shell (store : Store) (cid : String)
    (r : ConversationRecord) (h : loadConversation store cid = some r) :
    r.keyDecisions = [] ∧ r.problemsAndSolutions = [] ∧ r.todos = []
      ∧ r.summary = "" := by
  unfold loadConversation at h
  cases hf : store.find? (fun p => strIncludes p.1 cid) with
  | none => rw [hf] at h; cases h
  | some p =>
    rw [hf] at h
    unfold parseConversationMarkdown at h
    obtain rfl := Option.some.inj h
    exact ⟨rfl, rfl, rfl, rfl⟩

/-- C1 (amended). Because every mutating call reloads the record from
disk through the lossy markdown parser — whose recovered shell always
has empty `keyDecisions` / `problemsAndSolutions` / `todos` — the
in-memory record of a successful `addDecision` / `addProblemSolution` /
`addTodo` call contains exactly the one element appended by that call:
elements appended by earlier calls are no longer present. -/
theorem mutating_call_record_has_single_append
    (today : String) (store : Store)
    (cid dp dec rsn pb sol res todoId task : String) (prio : Priority)
    (r' : ConversationRecord) (s' : Store) :
    (addDecision today store cid dp dec rsn = Except.ok (r', s') →
      r'.keyDecisions = [{ decisionPoint := dp, decision := dec, reason := rsn }])
    ∧ (addProblemSolution today store cid pb sol res = Except.ok (r', s') →
      r'.problemsAndSolutions = [{ problem := pb, solution := sol, result := res }])
    ∧ (addTodo today store cid todoId task prio = Except.ok (r', s') →
      r'.todos = [{ id := todoId, task := task, completed := false,
                    priority := prio }]) := by
  refine ⟨?_, ?_, ?_⟩ <;> intro h
  · unfold addDecision at h
    cases hload : loadConversation store cid with
    | none => rw [hload] at h; cases h
    | some r =>
      rw [hload] at h
      obtain ⟨hr, -⟩ := Prod.mk.injEq .. ▸ Except.ok.inj h
      subst hr
      simp [(loadConversation_shell store cid r hload).1]
  · unfold addProblemSolution at h
    cases hload : loadConversation store cid with
    | none => rw [hload] at h; cases h
    | some r =>
      rw [hload] at h
      obtain ⟨hr, -⟩ := Prod.mk.injEq .. ▸ Except.ok.inj h
      subst hr
      simp [(loadConversation_shell store cid r hload).2.1]
  · unfold addTodo at h
    cases hload : loadConversation store cid with
    | none => rw [hload] at h; cases h
    | some r =>
      rw [hload] at h
      obtain ⟨hr, -⟩ := Prod.mk.injEq .. ▸ Except.ok.inj h
      subst hr
      simp [(loadConversation_shell store cid r hload).2.2.1]

/-- Counterexample to C1 as stated: after `addDecision("conv1", "p1",
"d1", "r1")` and then `addDecision("conv1", "p2", "d2", "r2")`, the
record object held (and saved) by the second call contains only the
second decision — the element appended by the earlier call is gone,
because the second call reloaded the record through the lossy parser. -/
theorem addDecision_drops_earlier_append :
    (match addDecision "2024-01-01" exStore "conv1" "p1" "d1" "r1" with
      | Except.ok (r, _) => r.keyDecisions
      | Except.error _ => []) =
      [{ decisionPoint := "p1", decision := "d1", reason := "r1" }]
    ∧ (match addDecision "2024-01-01" exStore1 "conv1" "p2" "d2" "r2" with
      | Except.ok (r, _) => r.keyDecisions
      | Except.error _ => []) =
      [{ decisionPoint := "p2", decision := "d2", reason := "r2" }]
    ∧ ({ decisionPoint := "p1", decision := "d1", reason := "r1" } : DecisionRecord) ∉
      (match addDecision "2024-01-01" exStore1 "conv1" "p2" "d2" "r2" with
        | Except.ok (r, _) => r.keyDecisions
        | Except.error _ => []) := by
  refine ⟨by decide, by decide, by decide⟩

/-- Witness for the amended C1 at a concrete two-call scenario. -/
theorem mutating_call_record_has_single_append_witness :
    ∃ r' s', addDecision "2024-01-01" exStore1 "conv1" "p2" "d2" "r2"
        = Except.ok (r', s')
      ∧ r'.keyDecisions = [{ decisionPoint := "p2", decision := "d2",
                             reason := "r2" }] := by
  cases h : addDecision "2024-01-01" exStore1 "conv1" "p2" "d2" "r2" with
  | error e =>
    have hs : (addDecision "2024-01-01" exStore1 "conv1" "p2" "d2" "r2").toOption.isSome
        = true := by decide
    rw [h] at hs
    cases hs
  | ok pr =>
    obtain ⟨r, s⟩ := pr
    refine ⟨r, s, rfl, ?_⟩
    exact (mutating_call_record_has_single_append "2024-01-01" exStore1 "conv1"
      "p2" "d2" "r2" "p" "s" "r" "id1" "t" Priority.low r s).1 h

/-- C8. `retrieveMemories` returns an empty conversation list (and score
0) whenever semantic indexing is disabled; otherwise it loads each
related id through the record store, keeping only successful loads, and
reports relevance exactly 0.8 when at least one related id was found and
0 otherwise. -/
theorem retrieveMemories_spec {υ π : Type} (s : MemorySystemState υ π)
    (q : String) (limit : Nat) :
    (s.semanticIndexEnabled = false →
      (retrieveMemories s q limit).conversations = []
      ∧ (retrieveMemories s q limit).relevanceScore = 0)
    ∧ (s.semanticIndexEnabled = true →
      (retrieveMemories s q limit).conversations
        = (getRelatedConversationIds s.index q limit).filterMap
            (fun id => loadConversation s.store id)
      ∧ (getRelatedConversationIds s.index q limit ≠ [] →
          (retrieveMemories s q limit).relevanceScore = 80)
      ∧ (getRelatedConversationIds s.index q limit = [] →
          (retrieveMemories s q limit).relevanceScore = 0)) := by
  constructor
  · intro h
    simp [retrieveMemories, h]
  · intro h
    refine ⟨by simp [retrieveMemories, h], ?_, ?_⟩
    · intro hne
      simp [retrieveMemories, h, List.isEmpty_iff, hne]
    · intro he
      simp [retrieveMemories, h, List.isEmpty_iff, he]

/-- Witness for C8 at a concrete coordinator state with one indexed
conversation. -/
theorem retrieveMemories_spec_witness :
    (retrieveMemories exMemState "jwt" 5).conversations
      = (getRelatedConversationIds exMemState.index "jwt" 5).filterMap
          (fun id => loadConversation exMemState.store id)
    ∧ (retrieveMemories exMemState "jwt" 5).relevanceScore = 80 := by
  have h := (retrieveMemories_spec exMemState "jwt" 5).2 (by rfl)
  exact ⟨h.1, h.2.1 (by decide)⟩

theorem splitOnPred_ne_nil (p : Char → Bool) (l : List Char) :
    splitOnPred p l ≠ [] := by
  cases l with
  | nil => simp [splitOnPred]
  | cons x xs =>
    cases hx : p x with
    | true => simp [splitOnPred, hx]
    | false =>
      cases hr : splitOnPred p xs with
      | nil => simp [splitOnPred, hx, hr]
      | cons w ws => simp [splitOnPred, hx, hr]

theorem splitOnPred_cons_of_neg (p : Char → Bool) (d : Char) (l : List Char)
    (hd : p d = false) :
    ∃ w ws, splitOnPred p l = w :: ws
      ∧ splitOnPred p (d :: l) = (d :: w) :: ws := by
  obtain ⟨w, ws, hw⟩ := List.exists_cons_of_ne_nil (splitOnPred_ne_nil p l)
  exact ⟨w, ws, hw, by simp [splitOnPred, hd, hw]⟩

theorem splitNonSpace_eq_filter (l : List Char) :
    splitNonSpace l
      = (splitOnPred isSpaceChar l).filter (fun w => !w.isEmpty) := by
  induction l with
  | nil => rfl
  | cons c cs ih =>
    cases hc : isSpaceChar c with
    | true => simp [splitNonSpace, splitOnPred, hc, ih]
    | false =>
      cases cs with
      | nil => simp [splitNonSpace, splitOnPred, hc]
      | cons d cs' =>
        cases hd : isSpaceChar d with
        | true =>
          have hstep : splitNonSpace (d :: cs') = splitNonSpace cs' := by
            simp [splitNonSpace, hd]
          have hns : splitNonSpace cs'
              = (splitOnPred isSpaceChar cs').filter (fun w => !w.isEmpty) := by
            rw [← hstep, ih]
            simp [splitOnPred, hd]
          have hsplit2 : splitOnPred isSpaceChar (c :: d :: cs')
              = [c] :: splitOnPred isSpaceChar cs' := by
            simp [splitOnPred, hc, hd]
          rw [hsplit2]
          cases hfil : (splitOnPred isSpaceChar cs').filter (fun w => !w.isEmpty) with
          | nil =>
            rw [splitNonSpace.eq_def]
            simp [hc, hd, hstep, hns, hfil]
          | cons w ws =>
            rw [splitNonSpace.eq_def]
            simp [hc, hd, hstep, hns, hfil]
        | false =>
          obtain ⟨w, ws, hw, hcons⟩ :=
            splitOnPred_cons_of_neg isSpaceChar d cs' hd
          have hns : splitNonSpace (d :: cs')
              = (d :: w) :: ws.filter (fun u => !u.isEmpty) := by
            rw [ih, hcons]
            simp
          have hsplit2 : splitOnPred isSpaceChar (c :: d :: cs')
              = (c :: d :: w) :: ws := by
            simp [splitOnPred, hc, hd, hw]
          rw [hsplit2]
          rw [splitNonSpace.eq_def]
          simp [hc, hd, hns]

theorem dedupFirst_not_mem_seen (seen : List String) (l : List String) :
    ∀ x ∈ dedupFirst seen l, ¬ x ∈ seen := by
  induction l generalizing seen with
  | nil => intro x hx; cases hx
  | cons y ys ih =>
    intro x hx
    unfold dedupFirst at hx
    split at hx
    · exact ih seen x hx
    · rcases List.mem_cons.mp hx with rfl | hx
      · next hy => exact fun hmem => hy (List.elem_eq_true_of_mem hmem)
      · exact fun hmem => ih (y :: seen) x hx (List.mem_cons_of_mem y hmem)

theorem dedupFirst_nodup (seen : List String) (l : List String) :
    (dedupFirst seen l).Nodup := by
  induction l generalizing seen with
  | nil => exact List.nodup_nil
  | cons y ys ih =>
    unfold dedupFirst
    split
    · exact ih seen
    · refine List.nodup_cons.mpr ⟨?_, ih (y :: seen)⟩
      intro hy
      exact dedupFirst_not_mem_seen (y :: seen) ys y hy (List.mem_cons_self y seen)

/-- Counterexample to C7 as stated: the string-level keyword extractor
returns a *list* that can contain duplicates, not a set — `"hello
hello"` extracts to two copies of `hello`. -/
theorem extractKeywordsFromString_duplicates :
    extractKeywordsFromString "hello hello" = ["hello", "hello"]
    ∧ ¬ (extractKeywordsFromString "hello hello").Nodup := by
  refine ⟨by decide, by decide⟩

/-- C7 (amended).  The string-level extractor realizes exactly the
spec's pipeline — lowercase, replace every character outside the
CJK/ASCII-letter-digit/whitespace allow-list with a space, split on
whitespace, discard tokens of length ≤ 1 and stop-word tokens — but
returns the token list with duplicates preserved; only the record-level
`extractKeywords` deduplicates (via a `Set`), so its result is
duplicate-free. -/
theorem extract_keywords_pipeline :
    (∀ text : String, extractKeywordsFromString text = specTokens text)
    ∧ ∀ c : ConversationRecord, (extractKeywords c).Nodup := by
  constructor
  · intro text
    by_cases htext : text = ""
    · subst htext; decide
    · unfold extractKeywordsFromString specTokens
      rw [if_neg htext]
      simp only [splitNonSpace_eq_filter, List.filter_map, List.filter_filter,
        Function.comp]
      congr 1
      apply List.filter_congr
      intro w _
      cases w with
      | nil => simp [List.isEmpty]
      | cons a as => simp [List.isEmpty, Bool.and_comm]
  · intro c
    exact dedupFirst_nodup [] _

/-! ### Score-map and bucket accounting lemmas -/

theorem find?_map_update {α : Type} (l : List (String × α)) (k : String)
    (g : α → α) (kw : String) :
    ((l.map (fun p => if p.1 = k then (p.1, g p.2) else p)).find?
        (fun p => decide (p.1 = kw)))
      = (l.find? (fun p => decide (p.1 = kw))).map
          (fun p => if p.1 = k then (p.1, g p.2) else p) := by
  induction l with
  | nil => rfl
  | cons q l ih =>
    have hkey : ((if q.1 = k then (q.1, g q.2) else q).1) = q.1 := by
      split <;> rfl
    cases hq : decide (q.1 = kw) with
    | true => simp only [List.map_cons, List.find?_cons, hkey, hq, Option.map_some']
    | false => simp only [List.map_cons, List.find?_cons, hkey, hq, ih]

theorem find?_append_cases {α : Type} (l₁ l₂ : List α) (p : α → Bool) :
    (l₁ ++ l₂).find? p
      = match l₁.find? p with
        | some x => some x
        | none => l₂.find? p := by
  induction l₁ with
  | nil => rfl
  | cons a l₁ ih =>
    cases ha : p a with
    | true => simp [List.find?_cons, ha]
    | false => simp [List.find?_cons, ha, ih]

theorem lookupScore_updateScore (s : ScoreMap) (eid : String) (w : Int)
    (fid : String) :
    lookupScore (updateScore s eid w) fid
      = lookupScore s fid + (if fid = eid then w else 0) := by
  unfold updateScore
  split
  · next hs =>
    unfold lookupScore
    rw [find?_map_update s eid (fun v => v + w) fid]
    cases hf : s.find? (fun p => decide (p.1 = fid)) with
    | none =>
      have hne : ¬ fid = eid := by
        intro he
        subst he
        rw [hf] at hs
        cases hs
      simp [hne]
    | some p =>
      have hp1 : p.1 = fid := by
        have := List.find?_some hf
        simpa using this
      rw [Option.map_some']
      rw [hp1]
      by_cases he : fid = eid
      · simp [he]
      · simp [he]
  · next hs =>
    unfold lookupScore
    rw [find?_append_cases]
    cases hf : s.find? (fun p => decide (p.1 = fid)) with
    | none =>
      by_cases he : fid = eid
      · subst he
        simp [List.find?_cons]
      · have hne' : ¬ eid = fid := fun h => he h.symm
        simp [List.find?_cons, he, hne']
    | some p =>
      have hne : ¬ fid = eid := by
        intro he
        subst he
        rw [hf] at hs
        exact hs (by rfl)
      simp [hne]

theorem declScore_cons (idx : Index) (kw : String) (kws : List String)
    (eid : String) :
    declScore idx (kw :: kws) eid
      = bucketScore idx kw eid + declScore idx kws eid := by
  simp [declScore]

theorem lookupScore_scoreBucket (s : ScoreMap) (es : List IndexEntry)
    (eid : String) :
    lookupScore (scoreBucket s es) eid
      = lookupScore s eid
        + ((es.filter (fun e => decide (e.id = eid))).map
            IndexEntry.relevanceScore).sum := by
  induction es generalizing s with
  | nil => simp [scoreBucket]
  | cons e es ih =>
    rw [scoreBucket, ih, lookupScore_updateScore, List.filter_cons]
    by_cases he : e.id = eid
    · rw [if_pos he.symm,
        if_pos (show decide (e.id = eid) = true by simp [he]),
        List.map_cons, List.sum_cons]
      ring
    · rw [if_neg (fun h : eid = e.id => he h.symm),
        if_neg (show ¬ decide (e.id = eid) = true by simp [he])]
      ring

theorem lookupScore_computeScores (idx : Index) (kws : List String)
    (s : ScoreMap) (eid : String) :
    lookupScore (computeScores idx kws s) eid
      = lookupScore s eid + declScore idx kws eid := by
  induction kws generalizing s with
  | nil => simp [computeScores, declScore]
  | cons kw kws ih =>
    rw [computeScores, declScore_cons]
    cases hb : getBucket idx kw with
    | none =>
      have hbs : bucketScore idx kw eid = 0 := by simp [bucketScore, hb]
      rw [ih, hbs]
      ring
    | some es =>
      have hbs : bucketScore idx kw eid
          = ((es.filter (fun e => decide (e.id = eid))).map
              IndexEntry.relevanceScore).sum := by
        simp [bucketScore, hb]
      rw [ih, lookupScore_scoreBucket, hbs]
      ring

theorem scoredKey_updateScore (s : ScoreMap) (eid : String) (w : Int)
    (fid : String) :
    scoredKey (updateScore s eid w) fid ↔ scoredKey s fid ∨ fid = eid := by
  unfold updateScore
  split
  · next hs =>
    constructor
    · rintro ⟨p, hp, hp1⟩
      rw [List.mem_map] at hp
      obtain ⟨q, hq, rfl⟩ := hp
      left
      refine ⟨q, hq, ?_⟩
      rw [← hp1]
      split <;> rfl
    · intro h
      rcases h with ⟨p, hp, hp1⟩ | hfe
      · refine ⟨if p.1 = eid then (p.1, p.2 + w) else p,
          List.mem_map_of_mem _ hp, ?_⟩
        rw [← hp1]
        split <;> rfl
      · obtain ⟨p, hp, hp1⟩ := List.find?_isSome.mp hs
        refine ⟨if p.1 = eid then (p.1, p.2 + w) else p,
          List.mem_map_of_mem _ hp, ?_⟩
        have hp1' : p.1 = eid := by simpa using hp1
        rw [if_pos hp1']
        rw [hfe, hp1']
  · next hs =>
    constructor
    · rintro ⟨p, hp, hp1⟩
      rcases List.mem_append.mp hp with hp | hp
      · exact Or.inl ⟨p, hp, hp1⟩
      · simp only [List.mem_singleton] at hp
        subst hp
        exact Or.inr hp1.symm
    · intro h
      rcases h with ⟨p, hp, hp1⟩ | hfe
      · exact ⟨p, List.mem_append_left _ hp, hp1⟩
      · exact ⟨(eid, w), List.mem_append_right _ (by simp), hfe.symm⟩

theorem scoredKey_scoreBucket (s : ScoreMap) (es : List IndexEntry)
    (fid : String) :
    scoredKey (scoreBucket s es) fid
      ↔ scoredKey s fid ∨ ∃ e ∈ es, e.id = fid := by
  induction es generalizing s with
  | nil => simp [scoreBucket]
  | cons e es ih =>
    rw [scoreBucket, ih, scoredKey_updateScore]
    constructor
    · rintro ((h | hfe) | h)
      · exact Or.inl h
      · exact Or.inr ⟨e, by simp, hfe.symm⟩
      · obtain ⟨e', he', hid⟩ := h
        exact Or.inr ⟨e', List.mem_cons_of_mem e he', hid⟩
    · rintro (h | ⟨e', he', hid⟩)
      · exact Or.inl (Or.inl h)
      · rcases List.mem_cons.mp he' with rfl | he'
        · exact Or.inl (Or.inr hid.symm)
        · exact Or.inr ⟨e', he', hid⟩

theorem scoredKey_computeScores (idx : Index) (kws : List String)
    (s : ScoreMap) (fid : String) :
    scoredKey (computeScores idx kws s) fid
      ↔ scoredKey s fid
        ∨ ∃ kw ∈ kws, ∃ e ∈ (getBucket idx kw).getD [], e.id = fid := by
  induction kws generalizing s with
  | nil => simp [computeScores]
  | cons kw kws ih =>
    rw [computeScores]
    cases hb : getBucket idx kw with
    | none =>
      rw [ih]
      constructor
      · rintro (h | ⟨kw', hkw', he⟩)
        · exact Or.inl h
        · exact Or.inr ⟨kw', List.mem_cons_of_mem kw hkw', he⟩
      · rintro (h | ⟨kw', hkw', e', he', hid⟩)
        · exact Or.inl h
        · rcases List.mem_cons.mp hkw' with rfl | hkw'
          · rw [hb] at he'; cases he'
          · exact Or.inr ⟨kw', hkw', e', he', hid⟩
    | some es =>
      rw [ih, scoredKey_scoreBucket]
      constructor
      · rintro ((h | ⟨e', he', hid⟩) | ⟨kw', hkw', he⟩)
        · exact Or.inl h
        · exact Or.inr ⟨kw, by simp, e', by simpa [hb] using he', hid⟩
        · exact Or.inr ⟨kw', List.mem_cons_of_mem kw hkw', he⟩
      · rintro (h | ⟨kw', hkw', e', he', hid⟩)
        · exact Or.inl (Or.inl h)
        · rcases List.mem_cons.mp hkw' with rfl | hkw'
          · exact Or.inl (Or.inr ⟨e', by simpa [hb] using he', hid⟩)
          · exact Or.inr ⟨kw', hkw', e', he', hid⟩

theorem keys_updateScore_nodup (s : ScoreMap) (eid : String) (w : Int)
    (h : (s.map Prod.fst).Nodup) : ((updateScore s eid w).map Prod.fst).Nodup := by
  unfold updateScore
  split
  · next hs =>
    have hkeys : ((s.map (fun p => if p.1 = eid then (p.1, p.2 + w) else p)).map
        Prod.fst) = s.map Prod.fst := by
      rw [List.map_map]
      apply List.map_congr_left
      intro p _
      show (if p.1 = eid then (p.1, p.2 + w) else p).1 = p.1
      split <;> rfl
    rw [hkeys]
    exact h
  · next hs =>
    rw [List.map_append]
    rw [List.nodup_append]
    refine ⟨h, by simp, ?_⟩
    intro a ha hb
    simp only [List.map_cons, List.map_nil, List.mem_singleton] at hb
    subst hb
    rw [List.mem_map] at ha
    obtain ⟨p, hp, hp1⟩ := ha
    exact hs (List.find?_isSome.mpr ⟨p, hp, by simp [hp1]⟩)

theorem keys_scoreBucket_nodup (s : ScoreMap) (es : List IndexEntry)
    (h : (s.map Prod.fst).Nodup) : ((scoreBucket s es).map Prod.fst).Nodup := by
  induction es generalizing s with
  | nil => exact h
  | cons e es ih => exact ih _ (keys_updateScore_nodup s e.id e.relevanceScore h)

theorem keys_computeScores_nodup (idx : Index) (kws : List String) (s : ScoreMap)
    (h : (s.map Prod.fst).Nodup) :
    ((computeScores idx kws s).map Prod.fst).Nodup := by
  induction kws generalizing s with
  | nil => exact h
  | cons kw kws ih =>
    rw [computeScores]
    cases getBucket idx kw with
    | none => exact ih _ h
    | some es => exact ih _ (keys_scoreBucket_nodup s es h)

theorem val_eq_lookupScore (s : ScoreMap) (h : (s.map Prod.fst).Nodup)
    (p : String × Int) (hp : p ∈ s) : p.2 = lookupScore s p.1 := by
  induction s with
  | nil => cases hp
  | cons q s ih =>
    rw [List.map_cons, List.nodup_cons] at h
    rcases List.mem_cons.mp hp with rfl | hp
    · simp [lookupScore, List.find?_cons]
    · have hq : ¬ q.1 = p.1 := by
        intro he
        exact h.1 (he ▸ List.mem_map_of_mem Prod.fst hp)
      unfold lookupScore
      rw [List.find?_cons]
      simp only [hq, decide_False]
      exact ih h.2 hp

theorem mem_allEntries (idx : Index) (e : IndexEntry) :
    e ∈ allEntries idx ↔ ∃ q ∈ idx, e ∈ q.2 := by
  induction idx with
  | nil => simp [allEntries]
  | cons q idx ih =>
    show e ∈ q.2 ++ allEntries idx ↔ _
    rw [List.mem_append, ih]
    constructor
    · rintro (h | ⟨q', hq', he⟩)
      · exact ⟨q, by simp, h⟩
      · exact ⟨q', List.mem_cons_of_mem q hq', he⟩
    · rintro ⟨q', hq', he⟩
      rcases List.mem_cons.mp hq' with rfl | hq'
      · exact Or.inl he
      · exact Or.inr ⟨q', hq', he⟩

theorem findEntryById_spec (idx : Index) (fid : String) (e : IndexEntry)
    (h : findEntryById idx fid = some e) : e ∈ allEntries idx ∧ e.id = fid := by
  refine ⟨List.mem_of_find?_eq_some h, ?_⟩
  have := List.find?_some h
  simpa using this

theorem findEntryById_isSome_of_bucket (idx : Index) (kw : String)
    (e : IndexEntry) (hb : e ∈ (getBucket idx kw).getD []) :
    (findEntryById idx e.id).isSome = true := by
  cases hg : getBucket idx kw with
  | none => rw [hg] at hb; cases hb
  | some es =>
    rw [hg, Option.getD_some] at hb
    unfold getBucket at hg
    cases hf : idx.find? (fun p => decide (p.1 = kw)) with
    | none => rw [hf] at hg; cases hg
    | some q =>
      rw [hf, Option.map_some'] at hg
      obtain rfl := Option.some.inj hg
      have hq : q ∈ idx := List.mem_of_find?_eq_some hf
      apply List.find?_isSome.mpr
      exact ⟨e, (mem_allEntries idx e).mpr ⟨q, hq, hb⟩, by simp⟩

/-- The effect of one step of the resolution loop, as an optional
resolved entry. -/
def gResolve (idx : Index) (p : String × Int) : Option IndexEntry :=
  (findEntryById idx p.1).map (fun e => { e with relevanceScore := p.2 })

theorem resolveLoop_eq_filterMap (idx : Index) (pairs : List (String × Int))
    (seen : List String) (hnd : (pairs.map Prod.fst).Nodup)
    (hseen : ∀ p ∈ pairs, ¬ p.1 ∈ seen) :
    resolveLoop idx pairs seen = pairs.filterMap (gResolve idx) := by
  induction pairs generalizing seen with
  | nil => rfl
  | cons p pairs ih =>
    obtain ⟨pid, ps⟩ := p
    rw [List.map_cons, List.nodup_cons] at hnd
    have hcontains : seen.contains pid = false := by
      cases hc : seen.contains pid with
      | false => rfl
      | true =>
        exact absurd (List.mem_of_elem_eq_true hc)
          (hseen (pid, ps) (List.mem_cons_self _ _))
    rw [resolveLoop, hcontains]
    simp only [Bool.false_eq_true, if_false]
    cases hfind : findEntryById idx pid with
    | some e =>
      rw [List.filterMap_cons]
      simp only [gResolve, hfind, Option.map_some']
      have hseen' : ∀ q ∈ pairs, ¬ q.1 ∈ pid :: seen := by
        intro q hq hmem
        rcases List.mem_cons.mp hmem with he | hmem
        · exact hnd.1 (by rw [← he]; exact List.mem_map.mpr ⟨q, hq, rfl⟩)
        · exact hseen q (List.mem_cons_of_mem _ hq) hmem
      rw [ih (pid :: seen) hnd.2 hseen']
    | none =>
      rw [List.filterMap_cons]
      simp only [gResolve, hfind, Option.map_none']
      exact ih seen hnd.2 (fun q hq => hseen q (List.mem_cons_of_mem _ hq))

theorem length_filterMap_of_isSome {α β : Type} (g : α → Option β) (l : List α)
    (h : ∀ a ∈ l, (g a).isSome = true) : (l.filterMap g).length = l.length := by
  induction l with
  | nil => rfl
  | cons a l ih =>
    obtain ⟨b, hb⟩ := Option.isSome_iff_exists.mp (h a (List.mem_cons_self _ _))
    rw [List.filterMap_cons, hb]
    simp only [List.length_cons]
    rw [ih (fun x hx => h x (List.mem_cons_of_mem a hx))]

theorem map_filterMap_of_proj {α β γ : Type} (g : α → Option β) (h' : β → γ)
    (f' : α → γ) (l : List α)
    (hproj : ∀ a ∈ l, ∀ b, g a = some b → h' b = f' a)
    (hs : ∀ a ∈ l, (g a).isSome = true) :
    (l.filterMap g).map h' = l.map f' := by
  induction l with
  | nil => rfl
  | cons a l ih =>
    obtain ⟨b, hb⟩ := Option.isSome_iff_exists.mp (hs a (List.mem_cons_self _ _))
    rw [List.filterMap_cons, hb, List.map_cons, List.map_cons]
    rw [hproj a (List.mem_cons_self _ _) b hb]
    rw [ih (fun x hx => hproj x (List.mem_cons_of_mem a hx))
          (fun x hx => hs x (List.mem_cons_of_mem a hx))]

/-- Counterexample to C2 as stated: with the `hello` bucket holding the
same entry twice (as indexing a decision whose text and rationale share
a keyword produces), a one-keyword query returns that entry with
accumulated score 200 (twice the base weight 100) — the weight was added
once per *occurrence* in the bucket — while the claim's "once per query
keyword whose bucket contains the entry" prescribes 100. -/
theorem search_counts_duplicate_occurrences :
    (search cxIdxDup "hello" 10).map IndexEntry.relevanceScore = [200]
    ∧ specClaimScore cxIdxDup "hello" "x" = 100
    ∧ (200 : Int) ≠ 100 := by
  refine ⟨by decide, by decide, by decide⟩

/-- C2 (amended). `search(query, limit)` accumulates, per entry id, the
base relevance weight once per occurrence of the entry in the bucket of
each occurrence of a query keyword (`declScore`); it sorts the scored
pairs descending by score, keeps the top `limit`, and returns the
resolved entries deduplicated by id in score order, each carrying its
accumulated sum as `relevanceScore`; any scored id that is not returned
is beaten (or tied) by every returned entry, and in that case the result
is full. -/
theorem search_spec (idx : Index) (query : String) (limit : Nat) :
    (search idx query limit).length ≤ limit
    ∧ ((search idx query limit).map IndexEntry.id).Nodup
    ∧ ((search idx query limit).map IndexEntry.relevanceScore).Sorted (· ≥ ·)
    ∧ (∀ r ∈ search idx query limit,
        r.relevanceScore = declScore idx (extractKeywordsFromString query) r.id
        ∧ ∃ e ∈ allEntries idx, e.id = r.id
            ∧ r = { e with relevanceScore := r.relevanceScore })
    ∧ (∀ fid : String,
        (∃ kw ∈ extractKeywordsFromString query,
            ∃ e ∈ (getBucket idx kw).getD [], e.id = fid) →
        ¬ fid ∈ (search idx query limit).map IndexEntry.id →
        (search idx query limit).length = limit
        ∧ ∀ r ∈ search idx query limit,
            declScore idx (extractKeywordsFromString query) fid
              ≤ r.relevanceScore) := by
  have hsearch : search idx query limit
      = resolveLoop idx
          ((List.insertionSort scoreGE
            (computeScores idx (extractKeywordsFromString query) [])).take limit)
          [] := rfl
  have f1 : ((computeScores idx (extractKeywordsFromString query) []).map
      Prod.fst).Nodup :=
    keys_computeScores_nodup idx _ [] (by simp)
  have f2 : (List.insertionSort scoreGE
        (computeScores idx (extractKeywordsFromString query) [])).Perm
      (computeScores idx (extractKeywordsFromString query) []) :=
    List.perm_insertionSort scoreGE _
  have f3 : List.Sorted scoreGE
      (List.insertionSort scoreGE
        (computeScores idx (extractKeywordsFromString query) [])) :=
    List.sorted_insertionSort scoreGE _
  have f4 : ((List.insertionSort scoreGE
      (computeScores idx (extractKeywordsFromString query) [])).map
        Prod.fst).Nodup :=
    ((f2.map Prod.fst).nodup_iff).mpr f1
  have f5 : ((List.insertionSort scoreGE
      (computeScores idx (extractKeywordsFromString query) [])).take limit).Sublist
      (List.insertionSort scoreGE
        (computeScores idx (extractKeywordsFromString query) [])) :=
    List.take_sublist limit _
  have f6 : (((List.insertionSort scoreGE
      (computeScores idx (extractKeywordsFromString query) [])).take limit).map
        Prod.fst).Nodup :=
    List.Nodup.sublist (List.Sublist.map Prod.fst f5) f4
  have fmem : ∀ p ∈ (List.insertionSort scoreGE
      (computeScores idx (extractKeywordsFromString query) [])).take limit,
      p ∈ computeScores idx (extractKeywordsFromString query) [] :=
    fun p hp => f2.mem_iff.mp (f5.subset hp)
  have fval : ∀ p ∈ computeScores idx (extractKeywordsFromString query) [],
      p.2 = declScore idx (extractKeywordsFromString query) p.1 := by
    intro p hp
    rw [val_eq_lookupScore _ f1 p hp, lookupScore_computeScores]
    show lookupScore [] p.1 + _ = _
    rw [show lookupScore [] p.1 = 0 from rfl]
    ring
  have fsome : ∀ p ∈ computeScores idx (extractKeywordsFromString query) [],
      (findEntryById idx p.1).isSome = true := by
    intro p hp
    have hk : scoredKey (computeScores idx (extractKeywordsFromString query) [])
        p.1 := ⟨p, hp, rfl⟩
    rcases (scoredKey_computeScores idx _ [] p.1).mp hk with h | ⟨kw, _, e, he, hid⟩
    · obtain ⟨q, hq, -⟩ := h
      cases hq
    · rw [← hid]
      exact findEntryById_isSome_of_bucket idx kw e he
  have hsome' : ∀ p ∈ (List.insertionSort scoreGE
      (computeScores idx (extractKeywordsFromString query) [])).take limit,
      (gResolve idx p).isSome = true := by
    intro p hp
    have hx := fsome p (fmem p hp)
    unfold gResolve
    cases hf : findEntryById idx p.1 with
    | none => rw [hf] at hx; cases hx
    | some e => simp
  have hres : search idx query limit
      = ((List.insertionSort scoreGE
          (computeScores idx (extractKeywordsFromString query) [])).take
            limit).filterMap (gResolve idx) := by
    rw [hsearch]
    exact resolveLoop_eq_filterMap idx _ [] f6 (by simp)
  have hids : (search idx query limit).map IndexEntry.id
      = ((List.insertionSort scoreGE
          (computeScores idx (extractKeywordsFromString query) [])).take
            limit).map Prod.fst := by
    rw [hres]
    apply map_filterMap_of_proj _ _ _ _ _ hsome'
    intro p hp b hb
    unfold gResolve at hb
    cases hf : findEntryById idx p.1 with
    | none => rw [hf] at hb; cases hb
    | some e =>
      rw [hf, Option.map_some'] at hb
      obtain rfl := Option.some.inj hb
      exact (findEntryById_spec idx p.1 e hf).2
  have hrels : (search idx query limit).map IndexEntry.relevanceScore
      = ((List.insertionSort scoreGE
          (computeScores idx (extractKeywordsFromString query) [])).take
            limit).map Prod.snd := by
    rw [hres]
    apply map_filterMap_of_proj _ _ _ _ _ hsome'
    intro p hp b hb
    unfold gResolve at hb
    cases hf : findEntryById idx p.1 with
    | none => rw [hf] at hb; cases hb
    | some e =>
      rw [hf, Option.map_some'] at hb
      obtain rfl := Option.some.inj hb
      rfl
  have hlen : (search idx query limit).length
      = ((List.insertionSort scoreGE
          (computeScores idx (extractKeywordsFromString query) [])).take
            limit).length := by
    rw [hres]
    exact length_filterMap_of_isSome _ _ hsome'
  refine ⟨?_, ?_, ?_, ?_, ?_⟩
  · rw [hlen]
    exact List.length_take_le limit _
  · rw [hids]
    exact f6
  · rw [hrels]
    have hp : List.Pairwise scoreGE
        ((List.insertionSort scoreGE
          (computeScores idx (extractKeywordsFromString query) [])).take limit) :=
      List.Pairwise.sublist f5 f3
    exact List.pairwise_map.mpr hp
  · intro r hr
    rw [hres] at hr
    obtain ⟨p, hp, hb⟩ := List.mem_filterMap.mp hr
    unfold gResolve at hb
    cases hf : findEntryById idx p.1 with
    | none => rw [hf] at hb; cases hb
    | some e =>
      rw [hf, Option.map_some'] at hb
      obtain rfl := Option.some.inj hb
      have hid : e.id = p.1 := (findEntryById_spec idx p.1 e hf).2
      have hval := fval p (fmem p hp)
      constructor
      · show p.2 = declScore idx (extractKeywordsFromString query) e.id
        rw [hid]
        exact hval
      · exact ⟨e, (findEntryById_spec idx p.1 e hf).1, rfl, rfl⟩
  · intro fid hscored hnotin
    have hkey : scoredKey
        (computeScores idx (extractKeywordsFromString query) []) fid :=
      (scoredKey_computeScores idx _ [] fid).mpr (Or.inr hscored)
    obtain ⟨q, hq, hq1⟩ := hkey
    have hqsorted : q ∈ List.insertionSort scoreGE
        (computeScores idx (extractKeywordsFromString query) []) :=
      f2.mem_iff.mpr hq
    have hsplit := List.take_append_drop limit
      (List.insertionSort scoreGE
        (computeScores idx (extractKeywordsFromString query) []))
    have hcases : q ∈ (List.insertionSort scoreGE
        (computeScores idx (extractKeywordsFromString query) [])).take limit
        ∨ q ∈ (List.insertionSort scoreGE
          (computeScores idx (extractKeywordsFromString query) [])).drop limit := by
      rw [← List.mem_append, hsplit]
      exact hqsorted
    have hqdrop : q ∈ (List.insertionSort scoreGE
        (computeScores idx (extractKeywordsFromString query) [])).drop limit := by
      rcases hcases with h | h
      · exfalso
        apply hnotin
        rw [hids, ← hq1]
        exact List.mem_map.mpr ⟨q, h, rfl⟩
      · exact h
    have hlimle : limit ≤ (List.insertionSort scoreGE
        (computeScores idx (extractKeywordsFromString query) [])).length := by
      by_contra hlt
      push_neg at hlt
      rw [List.drop_eq_nil_of_le (le_of_lt hlt)] at hqdrop
      cases hqdrop
    constructor
    · rw [hlen, List.length_take]
      exact min_eq_left hlimle
    · intro r hr
      rw [hres] at hr
      obtain ⟨p, hp, hb⟩ := List.mem_filterMap.mp hr
      unfold gResolve at hb
      cases hf : findEntryById idx p.1 with
      | none => rw [hf] at hb; cases hb
      | some e =>
        rw [hf, Option.map_some'] at hb
        obtain rfl := Option.some.inj hb
        have hge : scoreGE p q :=
          List.Sorted.rel_of_mem_take_of_mem_drop f3 hp hqdrop
        have hqval := fval q hq
        show declScore idx (extractKeywordsFromString query) fid ≤ p.2
        rw [← hq1, ← hqval]
        exact hge

/-- Witness for the amended C2: with bucket `hello ↦ [x(weight 100),
y(weight 200)]` and `limit = 1`, the excluded id `x` has score at most
every returned score and the single slot is filled. -/
theorem search_spec_witness :
    (search cxIdxTwo "hello" 1).length = 1
    ∧ ∀ r ∈ search cxIdxTwo "hello" 1,
        declScore cxIdxTwo (extractKeywordsFromString "hello") "x"
          ≤ r.relevanceScore :=
  (search_spec cxIdxTwo "hello" 1).2.2.2.2 "x"
    ⟨"hello", by decide, cxEntryX, by decide, by decide⟩
    (by decide)

/-! ### Multiplicity accounting for C9 -/

theorem countIn_pushEntry (idx : Index) (k : String) (e' e : IndexEntry)
    (kw : String) :
    countIn (pushEntry idx k e') kw e
      = countIn idx kw e + (if k = kw ∧ e' = e then 1 else 0) := by
  unfold countIn pushEntry getBucket
  split
  · next hs =>
    rw [find?_map_update idx k (fun v => v ++ [e']) kw]
    cases hf : idx.find? (fun p => decide (p.1 = kw)) with
    | none =>
      have hkne : ¬ k = kw := by
        intro he
        subst he
        rw [hf] at hs
        cases hs
      simp [hkne]
    | some q =>
      have hq1 : q.1 = kw := by simpa using List.find?_some hf
      rw [Option.map_some']
      by_cases hk : k = kw
      · rw [if_pos (hq1.trans hk.symm)]
        simp only [Option.map_some', Option.getD_some, List.countP_append]
        by_cases he : e' = e
        · simp [hk, he, List.countP_cons]
        · simp [he, List.countP_cons]
      · rw [if_neg (fun h => hk (h.symm.trans hq1))]
        have : ¬ (k = kw ∧ e' = e) := fun h => hk h.1
        simp [this]
  · next hs =>
    rw [find?_append_cases]
    cases hf : idx.find? (fun p => decide (p.1 = kw)) with
    | some q =>
      have hkne : ¬ k = kw := by
        intro he
        subst he
        rw [hf] at hs
        exact hs (by rfl)
      simp [hkne]
    | none =>
      by_cases hk : k = kw
      · subst hk
        by_cases he : e' = e
        · simp [List.find?_cons, he, List.countP_cons]
        · simp [List.find?_cons, he, List.countP_cons]
      · have : decide (k = kw) = false := by simp [hk]
        have hand : ¬ (k = kw ∧ e' = e) := fun h => hk h.1
        simp [List.find?_cons, this, hand]

theorem countIn_insertAll (idx : Index) (kws : List String) (e' e : IndexEntry)
    (kw : String) :
    countIn (insertAll idx kws e') kw e
      = countIn idx kw e + (if e' = e then kws.count kw else 0) := by
  induction kws generalizing idx with
  | nil => simp [insertAll]
  | cons k kws ih =>
    have hstep : insertAll idx (k :: kws) e'
        = insertAll (pushEntry idx k e') kws e' := rfl
    rw [hstep, ih, countIn_pushEntry, List.count_cons]
    have hbeq : (k == kw) = decide (k = kw) := by
      by_cases hk : k = kw <;> simp [hk]
    rw [hbeq]
    by_cases he : e' = e <;> by_cases hk : k = kw
    all_goals simp [he, hk]
    all_goals omega

/-- C9. Decision (and problem) entries are pushed into a keyword's
bucket once per occurrence of the keyword in the concatenated,
non-deduplicated keyword list, so a keyword occurring in both the
decision text and the rationale puts the same entry twice into one
bucket, and a single matching query keyword then accumulates the
entry's base weight once per occurrence; conversation-level keywords
are deduplicated, so the conversation entry enters each bucket at most
once per indexing call. -/
theorem index_entry_multiplicity :
    (∀ (idx : Index) (kws : List String) (e : IndexEntry) (kw : String),
        countIn (insertAll idx kws e) kw e = countIn idx kw e + kws.count kw)
    ∧ (∀ (idx : Index) (c : ConversationRecord) (d : DecisionRecord) (kw : String),
        c.keyDecisions = [d] → c.problemsAndSolutions = [] →
        countIn (indexConversation idx c) kw (decisionEntry c d)
          = countIn idx kw (decisionEntry c d) + (decisionKeywords d).count kw)
    ∧ (∀ (idx : Index) (c : ConversationRecord) (kw : String),
        countIn (insertAll idx (extractKeywords c) (conversationEntry c)) kw
            (conversationEntry c)
          ≤ countIn idx kw (conversationEntry c) + 1)
    ∧ (∀ (idx : Index) (kw : String) (e : IndexEntry) (n : Nat),
        ((getBucket idx kw).getD []).filter (fun x => decide (x.id = e.id))
            = List.replicate n e →
        lookupScore (computeScores idx [kw] []) e.id
          = (n : Int) * e.relevanceScore) := by
  refine ⟨?_, ?_, ?_, ?_⟩
  · intro idx kws e kw
    rw [countIn_insertAll]
    simp
  · intro idx c d kw hd hp
    have hne : conversationEntry c ≠ decisionEntry c d := by
      intro h
      have := congrArg IndexEntry.type h
      simp [conversationEntry, decisionEntry] at this
    have hunfold : indexConversation idx c
        = insertAll (insertAll idx (extractKeywords c) (conversationEntry c))
            (decisionKeywords d) (decisionEntry c d) := by
      unfold indexConversation
      rw [hd, hp]
      rfl
    rw [hunfold, countIn_insertAll, countIn_insertAll]
    simp [hne]
  · intro idx c kw
    rw [countIn_insertAll]
    split
    · have hle : (extractKeywords c).count kw ≤ 1 :=
        List.nodup_iff_count_le_one.mp (dedupFirst_nodup [] _) kw
      omega
    · omega
  · intro idx kw e n hrep
    rw [lookupScore_computeScores, declScore_cons]
    have h0 : lookupScore [] e.id = 0 := rfl
    have hnil : declScore idx [] e.id = 0 := by simp [declScore]
    rw [h0, hnil]
    unfold bucketScore
    rw [hrep, List.map_replicate, List.sum_replicate]
    simp [nsmul_eq_mul]

/-- Witness for C9: indexing the concrete record whose decision mentions
`jwt` in both the decision text and the rationale pushes its decision
entry twice into the `jwt` bucket. -/
theorem index_entry_multiplicity_witness :
    countIn (indexConversation [] exRecordDec) "jwt"
        (decisionEntry exRecordDec exDecision)
      = countIn ([] : Index) "jwt" (decisionEntry exRecordDec exDecision)
        + (decisionKeywords exDecision).count "jwt" :=
  index_entry_multiplicity.2.1 [] exRecordDec exDecision "jwt" rfl rfl

/-! ### Markdown round-trip lemmas for C3 -/

/-- Counterexample to C3 as stated: metadata values are split at *every*
colon and only the first fragment survives, so an ISO start time is
truncated at its first colon, and an empty end time is written (and read
back) as the `进行中` placeholder rather than the empty string. -/
theorem metadata_roundtrip_truncates_at_colon :
    (loadConversation exStore "conv1").map (fun r => r.metadata.startTime)
      = some "2024-01-01T10"
    ∧ exMeta.startTime = "2024-01-01T10:00:00Z"
    ∧ ("2024-01-01T10" : String) ≠ "2024-01-01T10:00:00Z"
    ∧ (loadConversation exStore "conv1").map (fun r => r.metadata.endTime)
      = some "进行中"
    ∧ exMeta.endTime = "" := by
  refine ⟨by decide, by decide, by decide, by decide, by decide⟩

theorem asString_data (s : String) : List.asString s.data = s := rfl

theorem splitOnPred_sep (p : Char → Bool) (c : Char) (hc : p c = true)
    (xs ys : List Char) :
    splitOnPred p (xs ++ c :: ys) = splitOnPred p xs ++ splitOnPred p ys := by
  induction xs with
  | nil => simp [splitOnPred, hc]
  | cons x xs ih =>
    cases hx : p x with
    | true => simp [splitOnPred, hx, ih]
    | false =>
      obtain ⟨u, us, hu, hcons1⟩ := splitOnPred_cons_of_neg p x xs hx
      obtain ⟨w, ws, hw, hcons2⟩ :=
        splitOnPred_cons_of_neg p x (xs ++ c :: ys) hx
      rw [List.cons_append, hcons2, hcons1, List.cons_append]
      rw [ih, hu] at hw
      obtain ⟨rfl, rfl⟩ := And.intro (List.cons.inj hw).1 (List.cons.inj hw).2
      rfl

theorem splitOnPred_no_sep (p : Char → Bool) (l : List Char)
    (h : ∀ x ∈ l, p x = false) : splitOnPred p l = [l] := by
  induction l with
  | nil => rfl
  | cons x xs ih =>
    have hx := h x (List.mem_cons_self x xs)
    simp [splitOnPred, hx, ih (fun y hy => h y (List.mem_cons_of_mem x hy))]

theorem no_newline_append (a b : String)
    (ha : ∀ ch ∈ a.data, ¬ ch = '\n') (hb : ∀ ch ∈ b.data, ¬ ch = '\n') :
    ∀ ch ∈ (a ++ b).data, ¬ ch = '\n' := by
  intro ch hch
  rw [String.data_append] at hch
  rcases List.mem_append.mp hch with h | h
  · exact ha ch h
  · exact hb ch h

theorem jsTrim_cons_space (c : Char) (l : List Char) (h : isSpaceChar c = true) :
    jsTrim (c :: l) = jsTrim l := by
  unfold jsTrim
  rw [List.dropWhile_cons]
  simp [h]

theorem strLines_joinLines_cons (l : String) (ls : List String)
    (hnl : ∀ ch ∈ l.data, ¬ ch = '\n') (hne : ls ≠ []) :
    strLines (joinLines (l :: ls)) = l :: strLines (joinLines ls) := by
  cases ls with
  | nil => exact absurd rfl hne
  | cons m ms =>
    have hjoin : joinLines (l :: m :: ms) = l ++ "\n" ++ joinLines (m :: ms) := rfl
    rw [hjoin]
    unfold strLines splitOnChar
    have hdata : (l ++ "\n" ++ joinLines (m :: ms)).data
        = l.data ++ '\n' :: (joinLines (m :: ms)).data := by
      rw [String.data_append, String.data_append]
      simp
    rw [hdata]
    rw [splitOnPred_sep _ '\n' (by decide) l.data (joinLines (m :: ms)).data]
    rw [splitOnPred_no_sep _ l.data (by intro x hx; simpa using hnl x hx)]
    simp [asString_data]

theorem kvOfLine_append (k v : String)
    (hk : ∀ ch ∈ k.data, ¬ ch = ':') (hkt : jsTrim k.data = k.data)
    (hv : ∀ ch ∈ v.data, ¬ ch = ':') (hvt : jsTrim v.data = v.data) :
    kvOfLine (k ++ ": " ++ v) = (k, v) := by
  unfold kvOfLine splitOnChar
  have hdata : (k ++ ": " ++ v).data = k.data ++ ':' :: ' ' :: v.data := by
    rw [String.data_append, String.data_append]
    simp
  rw [hdata]
  rw [splitOnPred_sep _ ':' (by decide) k.data (' ' :: v.data)]
  rw [splitOnPred_no_sep _ k.data (by intro x hx; simpa using hk x hx)]
  have hv' : splitOnPred (fun x => decide (x = ':')) (' ' :: v.data)
      = [' ' :: v.data] := by
    obtain ⟨w, ws, hw, hcons⟩ :=
      splitOnPred_cons_of_neg (fun x => decide (x = ':')) ' ' v.data (by decide)
    rw [splitOnPred_no_sep _ v.data (by intro x hx; simpa using hv x hx)] at hw
    obtain ⟨rfl, rfl⟩ := And.intro (List.cons.inj hw).1 (List.cons.inj hw).2
    exact hcons
  rw [hv']
  simp only [List.cons_append, List.nil_append, List.map_cons, List.map_nil]
  rw [jsTrim_cons_space ' ' v.data (by decide), hkt, hvt]
  simp [asString_data]

theorem contains_colon (k v : String) :
    listIncludes (k ++ ": " ++ v).data [':'] = true := by
  have hdata : (k ++ ": " ++ v).data = k.data ++ ([':'] ++ (' ' :: v.data)) := by
    rw [String.data_append, String.data_append]
    simp
  rw [hdata]
  exact listIncludes_append k.data [':'] (' ' :: v.data)

theorem append_ne_dashes (k v : String) (c : Char) (cs : List Char)
    (hk : k.data = c :: cs) (hc : ¬ c = '-') : ¬ (k ++ v) = "---" := by
  intro h
  have hd := congrArg String.data h
  rw [String.data_append, hk] at hd
  have hdash : ("---" : String).data = ['-', '-', '-'] := rfl
  rw [hdash] at hd
  exact hc (List.cons.inj hd).1

theorem metaLoop_dashes (ls : List String) (inMeta : Bool)
    (acc : List (String × String)) :
    metaLoop ("---" :: ls) inMeta acc = metaLoop ls (!inMeta) acc := by
  rw [metaLoop.eq_def]
  simp

theorem metaLoop_kv (l : String) (ls : List String)
    (acc : List (String × String)) (hne : ¬ l = "---")
    (hcol : listIncludes l.data [':'] = true) :
    metaLoop (l :: ls) true acc
      = metaLoop ls true (metaSet acc (kvOfLine l).1 (kvOfLine l).2) := by
  rw [metaLoop.eq_def]
  simp [hne, hcol]

theorem metaLoop_skip (l : String) (ls : List String)
    (acc : List (String × String)) (hne : ¬ l = "---")
    (hhash : listPrefixOf "##".data l.data = false) :
    metaLoop (l :: ls) false acc = metaLoop ls false acc := by
  rw [metaLoop.eq_def]
  simp [hne, hhash]

theorem metaLoop_stop (l : String) (ls : List String)
    (acc : List (String × String)) (hne : ¬ l = "---")
    (hhash : listPrefixOf "##".data l.data = true) :
    metaLoop (l :: ls) false acc = acc := by
  rw [metaLoop.eq_def]
  simp [hne, hhash]

theorem metaSet_fresh (m : List (String × String)) (k v : String)
    (h : m.find? (fun p => decide (p.1 = k)) = none) :
    metaSet m k v = m ++ [(k, v)] := by
  simp [metaSet, h]

/-- C3 (amended). `loadConversation` after `saveConversation` recovers
the metadata block only under the parser's syntactic constraints: every
metadata value must be colon-free (values are split at every colon and
truncated to the first fragment), newline-free, and trim-stable, and the
end time must be non-empty (an empty end time is serialized as the
`进行中` placeholder).  Under those conditions the metadata round-trips
exactly, while the body is recovered as the empty shell: summary `""`,
no decisions, no problem/solution pairs, no todos. -/
theorem metadata_roundtrip_colon_free (today : String) (r : ConversationRecord)
    (h1 : metaValueOk r.metadata.conversationId)
    (h2 : metaValueOk r.metadata.title)
    (h3 : metaValueOk r.metadata.startTime)
    (h4 : metaValueOk r.metadata.endTime)
    (h5 : metaValueOk r.metadata.userName)
    (h6 : metaValueOk r.metadata.project)
    (h7 : metaValueOk r.metadata.summary)
    (hend : ¬ r.metadata.endTime = "") :
    loadConversation (saveConversation today [] r.metadata.conversationId r)
        r.metadata.conversationId
      = some (emptyShellOf r) := by
  have hstore : saveConversation today [] r.metadata.conversationId r
      = [(conversationFilename today r.metadata.conversationId r.metadata.title,
          formatConversationMarkdown r)] := by
    simp [saveConversation, storeWrite]
  rw [hstore]
  unfold loadConversation
  have hinc : strIncludes
      (conversationFilename today r.metadata.conversationId r.metadata.title)
      r.metadata.conversationId = true := by
    unfold strIncludes conversationFilename
    have hshape : (today ++ "_" ++ r.metadata.conversationId ++ "_"
        ++ sanitizeTitle r.metadata.title ++ ".md").data
        = (today ++ "_").data ++ (r.metadata.conversationId.data
            ++ ("_" ++ sanitizeTitle r.metadata.title ++ ".md").data) := by
      simp [String.data_append]
    rw [hshape]
    exact listIncludes_append _ _ _
  have hfind : (([(conversationFilename today r.metadata.conversationId
        r.metadata.title, formatConversationMarkdown r)] : Store).find?
        (fun p => strIncludes p.1 r.metadata.conversationId))
      = some (conversationFilename today r.metadata.conversationId
          r.metadata.title, formatConversationMarkdown r) := by
    simp [List.find?_cons, hinc]
  rw [hfind]
  show parseConversationMarkdown (formatConversationMarkdown r)
    = some (emptyShellOf r)
  obtain ⟨rest, hfmt⟩ : ∃ rest, formatLines r
      = "---"
        :: ("conversation_id: " ++ r.metadata.conversationId)
        :: ("title: " ++ r.metadata.title)
        :: ("start_time: " ++ r.metadata.startTime)
        :: ("end_time: " ++ r.metadata.endTime)
        :: ("user_name: " ++ r.metadata.userName)
        :: ("project: " ++ r.metadata.project)
        :: ("summary: " ++ r.metadata.summary)
        :: "---" :: "" :: "## 对话摘要" :: "" :: rest :=
    ⟨_, by
      simp only [formatLines, if_neg hend, List.cons_append, List.nil_append]
      rfl⟩
  have hnl1 : ∀ ch ∈ ("conversation_id: " ++ r.metadata.conversationId).data,
      ¬ ch = '\n' :=
    no_newline_append _ _ (by decide) (fun ch hch => (h1.1 ch hch).2)
  have hnl2 : ∀ ch ∈ ("title: " ++ r.metadata.title).data, ¬ ch = '\n' :=
    no_newline_append _ _ (by decide) (fun ch hch => (h2.1 ch hch).2)
  have hnl3 : ∀ ch ∈ ("start_time: " ++ r.metadata.startTime).data, ¬ ch = '\n' :=
    no_newline_append _ _ (by decide) (fun ch hch => (h3.1 ch hch).2)
  have hnl4 : ∀ ch ∈ ("end_time: " ++ r.metadata.endTime).data, ¬ ch = '\n' :=
    no_newline_append _ _ (by decide) (fun ch hch => (h4.1 ch hch).2)
  have hnl5 : ∀ ch ∈ ("user_name: " ++ r.metadata.userName).data, ¬ ch = '\n' :=
    no_newline_append _ _ (by decide) (fun ch hch => (h5.1 ch hch).2)
  have hnl6 : ∀ ch ∈ ("project: " ++ r.metadata.project).data, ¬ ch = '\n' :=
    no_newline_append _ _ (by decide) (fun ch hch => (h6.1 ch hch).2)
  have hnl7 : ∀ ch ∈ ("summary: " ++ r.metadata.summary).data, ¬ ch = '\n' :=
    no_newline_append _ _ (by decide) (fun ch hch => (h7.1 ch hch).2)
  have hlines : strLines (formatConversationMarkdown r)
      = "---"
        :: ("conversation_id: " ++ r.metadata.conversationId)
        :: ("title: " ++ r.metadata.title)
        :: ("start_time: " ++ r.metadata.startTime)
        :: ("end_time: " ++ r.metadata.endTime)
        :: ("user_name: " ++ r.metadata.userName)
        :: ("project: " ++ r.metadata.project)
        :: ("summary: " ++ r.metadata.summary)
        :: "---" :: "" :: "## 对话摘要"
        :: strLines (joinLines ("" :: rest)) := by
    unfold formatConversationMarkdown
    rw [hfmt]
    rw [strLines_joinLines_cons _ _ (by decide) (by simp)]
    rw [strLines_joinLines_cons _ _ hnl1 (by simp)]
    rw [strLines_joinLines_cons _ _ hnl2 (by simp)]
    rw [strLines_joinLines_cons _ _ hnl3 (by simp)]
    rw [strLines_joinLines_cons _ _ hnl4 (by simp)]
    rw [strLines_joinLines_cons _ _ hnl5 (by simp)]
    rw [strLines_joinLines_cons _ _ hnl6 (by simp)]
    rw [strLines_joinLines_cons _ _ hnl7 (by simp)]
    rw [strLines_joinLines_cons _ _ (by decide) (by simp)]
    rw [strLines_joinLines_cons _ _ (by decide) (by simp)]
    rw [strLines_joinLines_cons _ _ (by decide) (by simp)]
  have hkv1 : kvOfLine ("conversation_id: " ++ r.metadata.conversationId)
      = ("conversation_id", r.metadata.conversationId) :=
    kvOfLine_append "conversation_id" _ (by decide) (by decide)
      (fun ch hch => (h1.1 ch hch).1) h1.2
  have hkv2 : kvOfLine ("title: " ++ r.metadata.title)
      = ("title", r.metadata.title) :=
    kvOfLine_append "title" _ (by decide) (by decide)
      (fun ch hch => (h2.1 ch hch).1) h2.2
  have hkv3 : kvOfLine ("start_time: " ++ r.metadata.startTime)
      = ("start_time", r.metadata.startTime) :=
    kvOfLine_append "start_time" _ (by decide) (by decide)
      (fun ch hch => (h3.1 ch hch).1) h3.2
  have hkv4 : kvOfLine ("end_time: " ++ r.metadata.endTime)
      = ("end_time", r.metadata.endTime) :=
    kvOfLine_append "end_time" _ (by decide) (by decide)
      (fun ch hch => (h4.1 ch hch).1) h4.2
  have hkv5 : kvOfLine ("user_name: " ++ r.metadata.userName)
      = ("user_name", r.metadata.userName) :=
    kvOfLine_append "user_name" _ (by decide) (by decide)
      (fun ch hch => (h5.1 ch hch).1) h5.2
  have hkv6 : kvOfLine ("project: " ++ r.metadata.project)
      = ("project", r.metadata.project) :=
    kvOfLine_append "project" _ (by decide) (by decide)
      (fun ch hch => (h6.1 ch hch).1) h6.2
  have hkv7 : kvOfLine ("summary: " ++ r.metadata.summary)
      = ("summary", r.metadata.summary) :=
    kvOfLine_append "summary" _ (by decide) (by decide)
      (fun ch hch => (h7.1 ch hch).1) h7.2
  have hm : metaLoop (strLines (formatConversationMarkdown r)) false []
      = [("conversation_id", r.metadata.conversationId),
         ("title", r.metadata.title),
         ("start_time", r.metadata.startTime),
         ("end_time", r.metadata.endTime),
         ("user_name", r.metadata.userName),
         ("project", r.metadata.project),
         ("summary", r.metadata.summary)] := by
    rw [hlines]
    rw [metaLoop_dashes]
    simp only [Bool.not_false]
    rw [metaLoop_kv _ _ _ (append_ne_dashes "conversation_id: " _ 'c' _ rfl
      (by decide)) (contains_colon "conversation_id" _), hkv1]
    rw [metaLoop_kv _ _ _ (append_ne_dashes "title: " _ 't' _ rfl
      (by decide)) (contains_colon "title" _), hkv2]
    rw [metaLoop_kv _ _ _ (append_ne_dashes "start_time: " _ 's' _ rfl
      (by decide)) (contains_colon "start_time" _), hkv3]
    rw [metaLoop_kv _ _ _ (append_ne_dashes "end_time: " _ 'e' _ rfl
      (by decide)) (contains_colon "end_time" _), hkv4]
    rw [metaLoop_kv _ _ _ (append_ne_dashes "user_name: " _ 'u' _ rfl
      (by decide)) (contains_colon "user_name" _), hkv5]
    rw [metaLoop_kv _ _ _ (append_ne_dashes "project: " _ 'p' _ rfl
      (by decide)) (contains_colon "project" _), hkv6]
    rw [metaLoop_kv _ _ _ (append_ne_dashes "summary: " _ 's' _ rfl
      (by decide)) (contains_colon "summary" _), hkv7]
    rw [metaLoop_dashes]
    simp only [Bool.not_true]
    rw [metaLoop_skip _ _ _ (by decide) (by decide)]
    rw [metaLoop_stop _ _ _ (by decide) (by decide)]
    simp [metaSet, List.find?]
  simp only [parseConversationMarkdown, hm]
  simp [metaGet, List.find?, emptyShellOf]

/-- Witness for the amended C3 at a concrete record whose metadata
values are colon-free, newline-free, trim-stable and whose end time is
set. -/
theorem metadata_roundtrip_colon_free_witness :
    loadConversation (saveConversation "2024-01-02" [] "conv1" exRecordPlain)
        "conv1"
      = some (emptyShellOf exRecordPlain) :=
  metadata_roundtrip_colon_free "2024-01-02" exRecordPlain
    ⟨by decide, by decide⟩ ⟨by decide, by decide⟩ ⟨by decide, by decide⟩
    ⟨by decide, by decide⟩ ⟨by decide, by decide⟩ ⟨by decide, by decide⟩
    ⟨by decide, by decide⟩ (by decide)

end Companion
